import Mathlib

/-!
Verification of the rootly-apigateway request pipeline.

Shallow embedding of the Go source of the gateway:
strings are modelled as lists of characters (`Str`), Go maps as
association lists, and the network as explicit oracle functions.
Every definition mirrors the Go function of the same name; the file
then proves or refutes the specification claims about them.
-/

namespace Gateway

/-- Strings are modelled as lists of characters, mirroring Go's byte/rune view. -/
abbrev Str := List Char

/-- Coercion from Lean string literals into the model. -/
def str (s : String) : Str := s.data

/-- Go `strings.ToLower` restricted to the ASCII range used by the gateway. -/
def toLowerStr (s : Str) : Str := s.map Char.toLower

/-- Go `strings.Trim(s, "/")`: removes all leading and trailing slash characters. -/
def trimSlashes (s : Str) : Str :=
  ((s.dropWhile (· = '/')).reverse.dropWhile (· = '/')).reverse

/-- Go `strings.Split(s, "/")`: splits on every slash; the empty string yields
one empty segment, exactly as in Go. -/
def splitSlash : Str → List Str
  | [] => [[]]
  | c :: cs =>
    match splitSlash cs with
    | [] => [[]]
    | seg :: rest => if c = '/' then [] :: seg :: rest else (c :: seg) :: rest

/-- Go `strings.Join(parts, "/")`. -/
def joinSlash : List Str → Str
  | [] => []
  | [s] => s
  | s :: rest => s ++ '/' :: joinSlash rest

/-- The route-segment splitting used everywhere in the gateway:
`strings.Split(strings.Trim(p, "/"), "/")`. -/
def goSplitPath (p : Str) : List Str := splitSlash (trimSlashes p)

/-- Go `strings.HasPrefix(part, "{") && strings.HasSuffix(part, "}")`:
the placeholder test of `matchRoute` and `replacePathParameters`. -/
def isPlaceholder (s : Str) : Bool := s.head? == some '{' && s.getLast? == some '}'

/-- Go `strings.Contains(s, sub)`: sub occurs at some position of s. -/
def strContains (s sub : Str) : Bool :=
  sub.isPrefixOf s ||
    match s with
    | [] => false
    | _ :: cs => strContains cs sub

/-- Fuel-indexed core of Go `strings.ReplaceAll`: greedy left-to-right
replacement of a non-empty pattern; the fuel is always at least the length
of the subject, so the zero-fuel arm is never reached. -/
def replaceAllAux (p new : Str) : Nat → Str → Str
  | _, [] => []
  | 0, s => s
  | fuel+1, c :: cs =>
    if p.isPrefixOf (c :: cs) then new ++ replaceAllAux p new fuel ((c :: cs).drop p.length)
    else c :: replaceAllAux p new fuel cs

/-- Go `strings.ReplaceAll(s, old, new)`; an empty pattern interleaves the
replacement around every character, as in Go. -/
def replaceAll (old new s : Str) : Str :=
  match old with
  | [] => new ++ (s.map (fun c => c :: new)).flatten
  | _ :: _ => replaceAllAux old new s.length s

/-- Route configuration, from `ports.RouteConfig` / `config.RouteConfig`. -/
structure UpstreamConfig where
  service : Str
  endpoint : Str
  method : Str
deriving DecidableEq, Repr

structure RouteConfig where
  path : Str
  method : Str
  mode : Str
  strategy : Str
  upstream : Str
  targetPath : Str
  authRequired : Bool
  upstreams : List UpstreamConfig
deriving DecidableEq, Repr

/-- The segment-comparison loop shared by both branches of `matchRoute`:
each route segment must be a `{name}` placeholder or literally equal to the
inbound segment at the same index (the inbound list may be longer). -/
def segsMatch : List Str → List Str → Bool
  | [], _ => true
  | _ :: _, [] => false
  | rp :: rps, p :: ps => (isPlaceholder rp || rp == p) && segsMatch rps ps

/-- `ConfigProvider.matchRoute` from `internal/adapters/http/gateway_handler.go`:
method check, then tail-wildcard or exact-length segment matching. -/
def matchRoute (route : RouteConfig) (path method : Str) : Bool :=
  if route.method != method && route.method != str "*" then false
  else
    let routeParts := goSplitPath route.path
    let pathParts := goSplitPath path
    if routeParts.getLast? == some (str "*") then
      let stem := routeParts.dropLast
      if pathParts.length < stem.length then false
      else segsMatch stem pathParts
    else
      if routeParts.length != pathParts.length then false
      else segsMatch routeParts pathParts

/-- Modelled from the spec wording of claim C2 only (not from the source):
split on '/' and drop all empty leading and trailing segments, so that a
path consisting only of slashes has no segments at all. -/
def specSegments (p : Str) : List Str :=
  (((splitSlash p).dropWhile (· = [])).reverse.dropWhile (· = [])).reverse

/-- Modelled from the spec wording of claim C2 only: the tail-wildcard match
condition on spec-style segments. -/
def specWildcardMatch (route : RouteConfig) (path : Str) : Bool :=
  let stem := (specSegments route.path).dropLast
  decide (stem.length ≤ (specSegments path).length) && segsMatch stem (specSegments path)

/-- The boundary-example routes of the spec: `/a/*`, `/{id}` and `/{id}/*`,
all with method wildcard. -/
def routeTailWild : RouteConfig := ⟨str "/a/*", str "*", str "proxy", [], [], [], false, []⟩

def routeIdExact : RouteConfig := ⟨str "/{id}", str "*", str "proxy", [], [], [], false, []⟩

def routeIdWild : RouteConfig := ⟨str "/{id}/*", str "*", str "proxy", [], [], [], false, []⟩

/-- JSON-like dynamic value, the model of Go `interface{}` bodies produced by
`encoding/json.Unmarshal` and by the strategies. -/
inductive JVal where
  | jnull
  | jbool (b : Bool)
  | jnum (n : Int)
  | jstr (s : Str)
  | jarr (elems : List JVal)
  | jobj (fields : List (Str × JVal))

/-- Go map assignment `m[k] = v` on an association list: overwrites the
existing entry for `k` or appends a fresh one. -/
def mapInsert {α : Type} (k : Str) (v : α) : List (Str × α) → List (Str × α)
  | [] => [(k, v)]
  | (k2, v2) :: rest => if k2 = k then (k, v) :: rest else (k2, v2) :: mapInsert k v rest

/-- Go map read `m[k]` with presence flag: first entry with key `k`. -/
def mapLookup {α : Type} (k : Str) : List (Str × α) → Option α
  | [] => none
  | (k2, v2) :: rest => if k2 = k then some v2 else mapLookup k rest

/-- The hop-by-hop header list of `ProxyStrategy.shouldForwardHeader`
(`internal/core/services/strategies/business_strategies.go`). -/
def hopByHopHeaders : List Str :=
  [str "Connection", str "Keep-Alive", str "Proxy-Authenticate", str "Proxy-Authorization",
   str "Te", str "Trailers", str "Transfer-Encoding", str "Upgrade"]

/-- `ProxyStrategy.shouldForwardHeader`: a header is forwarded unless its
lower-cased name equals the lower-cased form of a hop-by-hop header. -/
def shouldForwardHeader (name : Str) : Bool :=
  !(hopByHopHeaders.any (fun h => toLowerStr name == toLowerStr h))

/-- The header-copy loop of `ProxyStrategy.Execute` (lines 85-92): every
entry of the inbound header map whose name passes `shouldForwardHeader` is
added, with all its values, to the outbound request. -/
def forwardedHeaders (headers : List (Str × List Str)) : List (Str × List Str) :=
  headers.filter (fun p => shouldForwardHeader p.1)

/-- Upstream HTTP response as seen by the gateway: status code, Go
`http.Header` (canonical key to value list), body bytes. -/
structure HTTPResponse where
  statusCode : Nat
  headers : List (Str × List Str)
  body : Str

/-- Go `http.Header.Get`: the first value stored under the key, or the
empty string when the key is absent or has no values. -/
def headerGet (hs : List (Str × List Str)) (k : Str) : Str :=
  match hs.find? (fun p => p.1 == k) with
  | some (_, v :: _) => v
  | _ => []

/-- A gateway response body: either a JSON-like value or an opaque upstream
`*http.Response` stored unconverted in the `interface{}` field. -/
inductive BodyV where
  | jv (j : JVal)
  | raw (r : HTTPResponse)

/-- `domain.Response`. -/
structure Response where
  statusCode : Nat
  headers : List (Str × Str)
  body : BodyV

/-- `GatewayService.convertHTTPResponse` (`gateway_service.go` lines 287-324):
copies only the Content-Type header, then decodes the body — empty body
becomes an empty object, JSON decodes to its tree, anything else is kept as
the raw string.  The JSON decoder is passed in as the oracle `decode`. -/
def convertHTTPResponse (decode : Str → Option JVal) (resp : HTTPResponse) : Response :=
  let ct := headerGet resp.headers (str "Content-Type")
  let headers : List (Str × Str) := if ct ≠ [] then [(str "Content-Type", ct)] else []
  let body : JVal :=
    if resp.body = [] then .jobj []
    else
      match decode resp.body with
      | some j => j
      | none => .jstr resp.body
  ⟨resp.statusCode, headers, .jv body⟩

/-- A JSON decoder oracle that always fails, for concrete counterexamples. -/
def decodeNone : Str → Option JVal := fun _ => none

/-- The captured request body of `GatewayHandler.HandleRequest`: empty, a
decoded JSON tree, or raw bytes. -/
inductive BodyCapture where
  | empty
  | jsonTree (j : JVal)
  | rawBytes (b : Str)

/-- The body-extraction block of `GatewayHandler.HandleRequest`
(`gateway_handler.go` lines 67-105): only POST/PUT/PATCH requests are
inspected; `application/json` bodies are JSON-decoded (decoding failure
leaves the body empty), `multipart/form-data` bodies are stored raw and the
synthetic `x-multipart-body: true` header is set, any other content type
with positive content length is stored raw. -/
def captureBody (decode : Str → Option JVal) (method contentTypeHdr : Str)
    (hasBody : Bool) (contentLength : Int) (bodyBytes : Str)
    (headers : List (Str × Str)) : BodyCapture × List (Str × Str) :=
  if method == str "POST" || method == str "PUT" || method == str "PATCH" then
    let contentType := toLowerStr contentTypeHdr
    if strContains contentType (str "application/json") then
      (if hasBody then
        match decode bodyBytes with
        | some j => (.jsonTree j, headers)
        | none => (.empty, headers)
      else (.empty, headers))
    else if strContains contentType (str "multipart/form-data") then
      if hasBody then (.rawBytes bodyBytes, mapInsert (str "x-multipart-body") (str "true") headers)
      else (.empty, headers)
    else
      if hasBody && contentLength > 0 then (.rawBytes bodyBytes, headers)
      else (.empty, headers)
  else (.empty, headers)

/-- `ports.UserInfo` / `domain.User` (the pure data fields). -/
structure UserInfo where
  id : Str
  username : Str
  email : Str
  roles : List Str
deriving DecidableEq

/-- `ports.ServiceInfo`. -/
structure ServiceInfo where
  name : Str
  url : Str
  timeout : Str
deriving DecidableEq

/-- `domain.RequestContext`, restricted to the fields the pipeline reads. -/
structure RequestContext where
  method : Str
  path : Str
  headers : List (Str × Str)
  user : Option UserInfo

/-- The value returned by `StrategyManager.ExecuteStrategy`: either an
upstream `*http.Response` (as the proxy strategy returns) or a plain value. -/
inductive ExecValue where
  | httpResp (r : HTTPResponse)
  | value (j : JVal)

/-- `ports.StrategyParams` (pure data fields; HTTP client and logger omitted). -/
structure StrategyParams where
  request : RequestContext
  routeConfig : RouteConfig
  services : List (Str × ServiceInfo)
  userInfo : Option UserInfo

/-- A record of one `ExecuteStrategy` dispatch: strategy name plus the
parameters it received. -/
structure DispatchEvent where
  strategyName : Str
  params : StrategyParams

/-- The environment of `GatewayService`: the configuration snapshot plus the
oracle functions standing for the auth service, the strategy registry and
the JSON decoder. -/
structure GatewayEnv where
  routes : List RouteConfig
  services : List (Str × ServiceInfo)
  validateAPIKey : Str → Except Str Bool
  validateJWT : Str → Except Str UserInfo
  exec : Str → StrategyParams → Except Str ExecValue
  decode : Str → Option JVal

/-- `ConfigProvider.GetRouteConfig`: first route of the table matching path
and method, in declaration order. -/
def getRouteConfig (routes : List RouteConfig) (path method : Str) : Option RouteConfig :=
  routes.find? (fun r => matchRoute r path method)

/-- Error bodies of the pipeline: Go `map[string]string{"error": msg}`. -/
def errorBody (msg : Str) : BodyV := .jv (.jobj [(str "error", .jstr msg)])

/-- The synthetic principal returned for a valid API key
(`gateway_service.go` lines 113-119). -/
def apiKeyUser : UserInfo := ⟨str "api-key-user", str "api-key", [], [str "api-user"]⟩

/-- `GatewayService.authenticateRequest` (`gateway_service.go` lines
107-141): API key first (an invalid key falls through), then the
`Authorization: Bearer` header validated remotely, else failure. -/
def authenticateRequest (env : GatewayEnv) (reqCtx : RequestContext) : Except Str UserInfo :=
  let viaKey : Option (Except Str UserInfo) :=
    match mapLookup (str "x-api-key") reqCtx.headers with
    | some apiKey =>
      match env.validateAPIKey apiKey with
      | .error e => some (.error e)
      | .ok true => some (.ok apiKeyUser)
      | .ok false => none
    | none => none
  match viaKey with
  | some r => r
  | none =>
    match mapLookup (str "authorization") reqCtx.headers with
    | some authHeader =>
      if authHeader.length > 7 ∧ authHeader.take 7 = str "Bearer " then
        match env.validateJWT (authHeader.drop 7) with
        | .error e => .error e
        | .ok userInfo => .ok userInfo
      else .error (str "no valid authentication provided")
    | none => .error (str "no valid authentication provided")

/-- `GatewayService.handleProxyMode`: resolve the single upstream, dispatch
the `proxy` strategy, convert a returned `*http.Response`. -/
def handleProxyMode (env : GatewayEnv) (reqCtx : RequestContext)
    (routeConfig : RouteConfig) : Response × List DispatchEvent :=
  match mapLookup routeConfig.upstream env.services with
  | none => (⟨502, [], errorBody (str "Upstream service not configured")⟩, [])
  | some serviceInfo =>
    let params : StrategyParams :=
      ⟨reqCtx, routeConfig, [(routeConfig.upstream, serviceInfo)], reqCtx.user⟩
    match env.exec (str "proxy") params with
    | .error _ =>
      (⟨502, [], errorBody (str "Upstream service error")⟩, [⟨str "proxy", params⟩])
    | .ok (.httpResp r) => (convertHTTPResponse env.decode r, [⟨str "proxy", params⟩])
    | .ok (.value v) => (⟨200, [], .jv v⟩, [⟨str "proxy", params⟩])

/-- The upstream-collection loop of `handleLogicMode`: services referenced
by the route's upstream list, unknown names skipped. -/
def collectServices (env : List (Str × ServiceInfo)) (ups : List UpstreamConfig) :
    List (Str × ServiceInfo) :=
  ups.foldl (fun acc up =>
    match mapLookup up.service env with
    | none => acc
    | some si => mapInsert up.service si acc) []

/-- `GatewayService.handleLogicMode`: dispatch the route's named strategy
over the collected upstream services; failure becomes 500, success 200. -/
def handleLogicMode (env : GatewayEnv) (reqCtx : RequestContext)
    (routeConfig : RouteConfig) : Response × List DispatchEvent :=
  let params : StrategyParams :=
    ⟨reqCtx, routeConfig, collectServices env.services routeConfig.upstreams, reqCtx.user⟩
  match env.exec routeConfig.strategy params with
  | .error _ =>
    (⟨500, [], errorBody (str "Strategy execution failed")⟩, [⟨routeConfig.strategy, params⟩])
  | .ok (.httpResp r) => (⟨200, [], .raw r⟩, [⟨routeConfig.strategy, params⟩])
  | .ok (.value v) => (⟨200, [], .jv v⟩, [⟨routeConfig.strategy, params⟩])

/-- The service-collection block of `handleGraphQLMode`: only the single
optional upstream named by the route. -/
def graphQLServices (env : GatewayEnv) (routeConfig : RouteConfig) :
    List (Str × ServiceInfo) :=
  if routeConfig.upstream ≠ [] then
    match mapLookup routeConfig.upstream env.services with
    | some si => [(routeConfig.upstream, si)]
    | none => []
  else []

/-- `GatewayService.handleGraphQLMode`: like logic mode but with the single
optional upstream and a JSON Content-Type on success; failure becomes 500. -/
def handleGraphQLMode (env : GatewayEnv) (reqCtx : RequestContext)
    (routeConfig : RouteConfig) : Response × List DispatchEvent :=
  let params : StrategyParams := ⟨reqCtx, routeConfig, graphQLServices env routeConfig, reqCtx.user⟩
  match env.exec routeConfig.strategy params with
  | .error _ =>
    (⟨500, [], errorBody (str "GraphQL execution failed")⟩, [⟨routeConfig.strategy, params⟩])
  | .ok (.httpResp r) =>
    (⟨200, [(str "Content-Type", str "application/json")], .raw r⟩, [⟨routeConfig.strategy, params⟩])
  | .ok (.value v) =>
    (⟨200, [(str "Content-Type", str "application/json")], .jv v⟩, [⟨routeConfig.strategy, params⟩])

/-- The mode switch of `ProcessRequest` (`gateway_service.go` lines 90-103). -/
def dispatchMode (env : GatewayEnv) (rc : RequestContext) (routeConfig : RouteConfig) :
    Response × List DispatchEvent :=
  if routeConfig.mode = str "proxy" then handleProxyMode env rc routeConfig
  else if routeConfig.mode = str "logic" then handleLogicMode env rc routeConfig
  else if routeConfig.mode = str "graphql" then handleGraphQLMode env rc routeConfig
  else (⟨400, [], errorBody (str "Unsupported route mode: " ++ routeConfig.mode)⟩, [])

/-- `GatewayService.ProcessRequest` (`gateway_service.go` lines 44-104):
route lookup, the authentication gate for `auth_required` routes, then mode
dispatch.  The returned list records every `ExecuteStrategy` dispatch. -/
def processRequest (env : GatewayEnv) (reqCtx : RequestContext) :
    Response × List DispatchEvent :=
  match getRouteConfig env.routes reqCtx.path reqCtx.method with
  | none => (⟨404, [], errorBody (str "Route not found")⟩, [])
  | some routeConfig =>
    if routeConfig.authRequired then
      match authenticateRequest env reqCtx with
      | .error _ => (⟨401, [], errorBody (str "Authentication failed")⟩, [])
      | .ok user => dispatchMode env { reqCtx with user := some user } routeConfig
    else dispatchMode env reqCtx routeConfig

/-- The outcome of the gin JWT middleware on one request. -/
inductive MWOutcome where
  | next (user : Option UserInfo)
  | abort401 (msg : Str)

/-- Go `strings.SplitN(s, " ", 2)`. -/
def splitNSpace2 (s : Str) : List Str :=
  let pre := s.takeWhile (· ≠ ' ')
  match s.dropWhile (· ≠ ' ') with
  | [] => [pre]
  | _ :: t => [pre, t]

/-- `JWTMiddleware.ValidateRequest` (`jwt_middleware.go` lines 48-128):
OPTIONS requests pass through untouched; unmatched or auth-free routes pass
through; otherwise the Bearer header is required and validated remotely via
the `validateToken` oracle. -/
def validateRequestMW (routes : List RouteConfig)
    (validateToken : Str → Except Str UserInfo)
    (method path authHeader : Str) : MWOutcome :=
  if method == str "OPTIONS" then .next none
  else
    match getRouteConfig routes path method with
    | none => .next none
    | some routeConfig =>
      if !routeConfig.authRequired then .next none
      else if authHeader == [] then .abort401 (str "Missing authorization header")
      else
        let parts := splitNSpace2 authHeader
        if parts.length ≠ 2 ∨ toLowerStr (parts.headD []) ≠ str "bearer" then
          .abort401 (str "Invalid authorization header format")
        else
          match validateToken (parts.getD 1 []) with
          | .error _ => .abort401 (str "Invalid or expired token")
          | .ok user => .next (some user)

/-- A concrete environment for witnesses and counterexamples: one
`auth_required` proxy route `/p` with method wildcard, a failing JWT
validator and a rejecting API-key validator. -/
def routeAuthP : RouteConfig :=
  ⟨str "/p", str "*", str "proxy", str "", str "auth", str "", true, []⟩

def envAuth : GatewayEnv :=
  ⟨[routeAuthP], [(str "auth", ⟨str "auth", str "http-auth", str "10s"⟩)],
   fun _ => .ok false, fun _ => .error (str "invalid token"),
   fun _ _ => .ok (.value .jnull), decodeNone⟩

/-- A token validator oracle that always fails, for concrete inputs. -/
def validateTokenFail : Str → Except Str UserInfo := fun _ => .error (str "invalid token")

/-- Outcome of one upstream call as an orchestrator sees it, after
`callService`: decoded value on success, error message otherwise.  The
network and JSON decoding are abstracted as the `call` oracle. -/
abbrev CallOutcome := Except Str JVal

/-- One step of the result-collection loop of
`DashboardOrchestratorStrategy.Execute` (`business_strategies.go` lines
262-273): a success goes into the data map, a failure into the error map,
both keyed by the upstream's service name. -/
def collectStep (call : UpstreamConfig → CallOutcome)
    (acc : List (Str × JVal) × List (Str × Str)) (up : UpstreamConfig) :
    List (Str × JVal) × List (Str × Str) :=
  match call up with
  | .ok v => (mapInsert up.service v acc.1, acc.2)
  | .error e => (acc.1, mapInsert up.service e acc.2)

/-- The collected `(results, errors)` maps of the dashboard fan-out.  The
Go code collects in channel-completion order; the embedding fixes the
declaration order of the upstream list, which has the same key sets. -/
def collectResults (call : UpstreamConfig → CallOutcome) (ups : List UpstreamConfig) :
    List (Str × JVal) × List (Str × Str) :=
  ups.foldl (collectStep call) ([], [])

/-- The Go `map[string]error` rendered into the response body. -/
def errorsObj (errors : List (Str × Str)) : JVal :=
  .jobj (errors.map (fun p => (p.1, .jstr p.2)))

/-- The `dashboardData` map built by `DashboardOrchestratorStrategy.Execute`
(lines 276-287): timestamp and data always, errors only when some call
failed. -/
def dashboardFields (call : UpstreamConfig → CallOutcome) (route : RouteConfig)
    (now : Str) : List (Str × JVal) :=
  let collected := collectResults call route.upstreams
  let base := [(str "timestamp", JVal.jstr now), (str "data", JVal.jobj collected.1)]
  if collected.2.length > 0 then base ++ [(str "errors", errorsObj collected.2)] else base

/-- `DashboardOrchestratorStrategy.Execute`: always returns the dashboard
value with a nil error. -/
def dashboardOrchestratorExecute (call : UpstreamConfig → CallOutcome)
    (route : RouteConfig) (now : Str) : Except Str JVal :=
  .ok (.jobj (dashboardFields call route now))

/-- The unexported `serviceCall` struct of `business_strategies.go`. -/
structure ServiceCallCfg where
  service : Str
  endpoint : Str
  method : Str
deriving DecidableEq

/-- The scan of `PlantFullReportStrategy.extractPlantID`: the segment
following the first literal `plant` segment, if any. -/
def plantIDFromParts : List Str → Str
  | [] => []
  | [_] => []
  | p :: q :: rest => if p = str "plant" then q else plantIDFromParts (q :: rest)

/-- `PlantFullReportStrategy.extractPlantID`. -/
def extractPlantID (path : Str) : Str := plantIDFromParts (goSplitPath path)

/-- The call list of `PlantFullReportStrategy.Execute` (lines 662-670): each
upstream endpoint with `{id}` replaced by the plant ID. -/
def plantCalls (route : RouteConfig) (plantID : Str) : List ServiceCallCfg :=
  route.upstreams.map (fun up =>
    ⟨up.service, replaceAll (str "{id}") plantID up.endpoint, up.method⟩)

/-- One step of the result-collection loop of
`PlantFullReportStrategy.Execute` (lines 695-707). -/
def collectCallStep (call : ServiceCallCfg → CallOutcome)
    (acc : List (Str × JVal) × List (Str × Str)) (c : ServiceCallCfg) :
    List (Str × JVal) × List (Str × Str) :=
  match call c with
  | .ok v => (mapInsert c.service v acc.1, acc.2)
  | .error e => (acc.1, mapInsert c.service e acc.2)

/-- The collected `(results, errors)` maps of the plant-report fan-out. -/
def collectCallResults (call : ServiceCallCfg → CallOutcome)
    (calls : List ServiceCallCfg) : List (Str × JVal) × List (Str × Str) :=
  calls.foldl (collectCallStep call) ([], [])

/-- The `report` map built by `PlantFullReportStrategy.Execute` (lines
710-718); a Go map read of a missing key yields nil. -/
def plantReportFields (results : List (Str × JVal)) (plantID now : Str) :
    List (Str × JVal) :=
  [(str "plant_id", .jstr plantID), (str "timestamp", .jstr now),
   (str "report", .jobj [
      (str "plant_info", (mapLookup (str "plant_management") results).getD .jnull),
      (str "analytics", (mapLookup (str "analytics") results).getD .jnull),
      (str "measurements", (mapLookup (str "data_management") results).getD .jnull)])]

/-- `PlantFullReportStrategy.Execute` (lines 644-729): extract the plant ID,
fan out, and fail only when some call failed AND the `plant_management` key
is missing from the results. -/
def plantFullReportExecute (call : ServiceCallCfg → CallOutcome)
    (route : RouteConfig) (path now : Str) : Except Str JVal :=
  let plantID := extractPlantID path
  if plantID = [] then .error (str "plant ID not found in path")
  else
    let collected := collectCallResults call (plantCalls route plantID)
    let report := plantReportFields collected.1 plantID now
    if collected.2.length > 0 then
      if (mapLookup (str "plant_management") collected.1).isNone then
        .error (str "failed to retrieve critical plant information")
      else .ok (.jobj (report ++ [(str "errors", errorsObj collected.2)]))
    else .ok (.jobj report)

/-- Concrete routes and call oracles for the orchestrator witnesses and
counterexamples. -/
def routeDash : RouteConfig :=
  ⟨str "/api/v1/dashboard", str "GET", str "logic", str "dashboard_orchestrator", str "",
   str "", false, [⟨str "analytics", str "/metrics", str "GET"⟩,
                   ⟨str "plant_management", str "/plants", str "GET"⟩]⟩

def routeDupDash : RouteConfig :=
  ⟨str "/api/v1/dashboard", str "GET", str "logic", str "dashboard_orchestrator", str "",
   str "", false, [⟨str "a", str "/x", str "GET"⟩, ⟨str "a", str "/y", str "GET"⟩]⟩

def callDash : UpstreamConfig → CallOutcome := fun up =>
  if up.service = str "analytics" then .ok (.jobj [(str "a", .jnum 1)])
  else .error (str "request failed")

def routePlantA : RouteConfig :=
  ⟨str "/api/v1/plant/{id}/full-report", str "GET", str "logic", str "plant_full_report",
   str "", str "", false, [⟨str "analytics", str "/analytics/{id}", str "GET"⟩]⟩

def callPlantFail : ServiceCallCfg → CallOutcome := fun _ => .error (str "request failed")

def callPlantOk : ServiceCallCfg → CallOutcome := fun _ => .ok (.jnum 1)

/-- The scanning loop of the unexported `containsHelper` of
`graphql_strategies.go`: checks every window of sub's length. -/
def containsHelper (s sub : Str) : Bool :=
  (List.range (s.length - sub.length + 1)).any (fun i => (s.drop i).take sub.length == sub)

/-- The unexported `contains` of `graphql_strategies.go` (case-SENSITIVE
substring containment despite its comment), translated branch by branch. -/
def containsGo (s sub : Str) : Bool :=
  decide (sub.length ≤ s.length) &&
    (s == sub ||
      (decide (sub.length < s.length) &&
        (s.take sub.length == sub || s.drop (s.length - sub.length) == sub ||
         containsHelper s sub)))

/-- `LocalSchemaStrategy.containsField`: any of the field keywords occurs in
the query. -/
def containsField (query : Str) (fields : List Str) : Bool :=
  fields.any (fun f => containsGo query f)

/-- A record of one outbound GraphQL forward performed by the local-schema
strategy: service name, endpoint and the query sent. -/
structure ForwardEvent where
  service : Str
  endpoint : Str
  query : Str

/-- `LocalSchemaStrategy.callAnalyticsService`: forward to the `analytics`
upstream at `/graphql` (the network is the `forward` oracle). -/
def callAnalyticsService (services : List (Str × ServiceInfo))
    (forward : ServiceInfo → Str → Str → CallOutcome) (query : Str) :
    CallOutcome × List ForwardEvent :=
  match mapLookup (str "analytics") services with
  | none => (.error (str "analytics service not configured"), [])
  | some si => (forward si (str "/graphql") query, [⟨str "analytics", str "/graphql", query⟩])

/-- `LocalSchemaStrategy.callPlantManagementService`: forward to the
`plant_management` upstream at `/graphql`. -/
def callPlantManagementService (services : List (Str × ServiceInfo))
    (forward : ServiceInfo → Str → Str → CallOutcome) (query : Str) :
    CallOutcome × List ForwardEvent :=
  match mapLookup (str "plant_management") services with
  | none => (.error (str "plant management service not configured"), [])
  | some si =>
    (forward si (str "/graphql") query, [⟨str "plant_management", str "/graphql", query⟩])

/-- `LocalSchemaStrategy.callAuthService`: forward to the `auth` upstream at
`/graphql`. -/
def callAuthService (services : List (Str × ServiceInfo))
    (forward : ServiceInfo → Str → Str → CallOutcome) (query : Str) :
    CallOutcome × List ForwardEvent :=
  match mapLookup (str "auth") services with
  | none => (.error (str "auth service not configured"), [])
  | some si => (forward si (str "/graphql") query, [⟨str "auth", str "/graphql", query⟩])

/-- The two hard-coded child queries of `orchestrateDashboardQuery`. -/
def dashboardMetricsQuery : Str := str "query { metrics { temperature humidity lightLevel } }"

def dashboardPlantsQuery : Str := str "query { plants { id name type status } }"

/-- `LocalSchemaStrategy.orchestrateDashboardQuery`: issue the two child
queries to the configured services, silently dropping per-child failures. -/
def orchestrateDashboardQuery (services : List (Str × ServiceInfo))
    (forward : ServiceInfo → Str → Str → CallOutcome) : JVal × List ForwardEvent :=
  let a : List (Str × JVal) × List ForwardEvent :=
    match mapLookup (str "analytics") services with
    | some si =>
      match forward si (str "/graphql") dashboardMetricsQuery with
      | .ok v => ([(str "analytics", v)], [⟨str "analytics", str "/graphql", dashboardMetricsQuery⟩])
      | .error _ => ([], [⟨str "analytics", str "/graphql", dashboardMetricsQuery⟩])
    | none => ([], [])
  let p : List (Str × JVal) × List ForwardEvent :=
    match mapLookup (str "plant_management") services with
    | some si =>
      match forward si (str "/graphql") dashboardPlantsQuery with
      | .ok v => ([(str "plants", v)], [⟨str "plant_management", str "/graphql", dashboardPlantsQuery⟩])
      | .error _ => ([], [⟨str "plant_management", str "/graphql", dashboardPlantsQuery⟩])
    | none => ([], [])
  (.jobj [(str "data", .jobj [(str "dashboard", .jobj (a.1 ++ p.1))])], a.2 ++ p.2)

/-- `LocalSchemaStrategy.buildIntrospectionResponse`. -/
def buildIntrospectionResponse : JVal :=
  .jobj [(str "data", .jobj [(str "__schema", .jobj [(str "types", .jarr [
    .jobj [(str "name", .jstr (str "Query")), (str "kind", .jstr (str "OBJECT")),
      (str "fields", .jarr [
        .jobj [(str "name", .jstr (str "analytics")),
          (str "type", .jobj [(str "name", .jstr (str "Analytics"))])],
        .jobj [(str "name", .jstr (str "plants")),
          (str "type", .jobj [(str "name", .jstr (str "[Plant]"))])],
        .jobj [(str "name", .jstr (str "dashboard")),
          (str "type", .jobj [(str "name", .jstr (str "Dashboard"))])]])]])])])]

/-- `LocalSchemaStrategy.handleIntrospectionOrDefault`: the introspection
stub for `__schema`/`__type` queries, an error otherwise. -/
def handleIntrospectionOrDefault (query : Str) : CallOutcome :=
  if containsGo query (str "__schema") || containsGo query (str "__type") then
    .ok buildIntrospectionResponse
  else .error (str "unknown GraphQL operation")

/-- `LocalSchemaStrategy.routeGraphQLOperation`: keyword dispatch over the
raw query string (the forwarded GraphQL request is abstracted to its query;
variables and operation name ride along unchanged in the source). -/
def routeGraphQLOperation (services : List (Str × ServiceInfo))
    (forward : ServiceInfo → Str → Str → CallOutcome) (query : Str) :
    CallOutcome × List ForwardEvent :=
  if containsField query [str "analytics", str "metrics", str "measurements"] then
    callAnalyticsService services forward query
  else if containsField query [str "plants", str "devices"] then
    callPlantManagementService services forward query
  else if containsField query [str "users", str "auth"] then
    callAuthService services forward query
  else if containsField query [str "dashboard"] then
    let d := orchestrateDashboardQuery services forward
    (.ok d.1, d.2)
  else (handleIntrospectionOrDefault query, [])

/-- `LocalSchemaStrategy.buildErrorResponse`. -/
def buildErrorResponse (e : Str) : JVal :=
  .jobj [(str "errors", .jarr [.jobj [(str "message", .jstr e)]])]

/-- `LocalSchemaStrategy.Execute` after body parsing: a routing error is
converted into a normal GraphQL error value with a nil Go error. -/
def localSchemaExecute (services : List (Str × ServiceInfo))
    (forward : ServiceInfo → Str → Str → CallOutcome) (query : Str) :
    CallOutcome × List ForwardEvent :=
  match routeGraphQLOperation services forward query with
  | (.error e, evs) => (.ok (buildErrorResponse e), evs)
  | ok => ok

/-- The placeholder-substitution loop of `replacePathParameters` (both the
wildcard-prefix and the exact branch): each placeholder route segment is
ReplaceAll-ed with the request segment at the same index. -/
def substParams : List Str → List Str → Str → Str
  | [], _, acc => acc
  | _ :: _, [], acc => acc
  | rp :: rps, v :: vs, acc =>
    substParams rps vs (if isPlaceholder rp then replaceAll rp v acc else acc)

/-- `ProxyStrategy.replacePathParameters` (`business_strategies.go` lines
138-183): substitute placeholder bindings into the target template, and for
tail-wildcard routes substitute `*` with the joined wildcard tail. -/
def replacePathParameters (targetPath requestPath routePath : Str) : Str :=
  let routeParts := goSplitPath routePath
  let requestParts := goSplitPath requestPath
  if routeParts.getLast? == some (str "*") then
    let stem := routeParts.dropLast
    if stem.length ≤ requestParts.length then
      let result := substParams stem requestParts targetPath
      if strContains result (str "*") then
        replaceAll (str "*") (joinSlash (requestParts.drop stem.length)) result
      else result
    else targetPath
  else
    if routeParts.length != requestParts.length then targetPath
    else substParams routeParts requestParts targetPath

/-- A path segment free of the structural characters of the rewrite
algorithm (braces and star). -/
def cleanSeg (seg : Str) : Bool :=
  !seg.contains '{' && !seg.contains '}' && !seg.contains '*'

/-- Proof device for the rewrite law: the segment-wise effect of the
substitution loop — placeholder segments become the corresponding request
segment, others stay. -/
def substSegs : List Str → List Str → List Str
  | [], _ => []
  | l, [] => l
  | rp :: rps, v :: vs => (if isPlaceholder rp then v else rp) :: substSegs rps vs

/-- The identity-template tail-wildcard route of the C8 counterexample. -/
def routeWildTP : RouteConfig :=
  ⟨str "/a/*", str "*", str "proxy", str "", str "", str "/a/*", false, []⟩

/-- The identity-template placeholder-and-wildcard route of the C8 witness. -/
def routeC8 : RouteConfig :=
  ⟨str "/api/{id}/*", str "*", str "proxy", str "", str "auth", str "/api/{id}/*", false, []⟩

/-- Concrete GraphQL fixtures for the C9 witness. -/
def siPlantMgmt : ServiceInfo := ⟨str "plant_management", str "http-pm", str "10s"⟩

def servicesPM : List (Str × ServiceInfo) := [(str "plant_management", siPlantMgmt)]

def forwardOk : ServiceInfo → Str → Str → CallOutcome := fun _ _ _ => .ok .jnull

/-- Characterisation of `matchRoute` on tail-wildcard routes, in terms of the
code's own segmentation `goSplitPath`. -/
theorem matchRoute_wildcard_iff (route : RouteConfig) (path method : Str)
    (hmeth : route.method = method ∨ route.method = str "*")
    (hlast : (goSplitPath route.path).getLast? = some (str "*")) :
    matchRoute route path method = true ↔
      ((goSplitPath route.path).dropLast.length ≤ (goSplitPath path).length ∧
       segsMatch (goSplitPath route.path).dropLast (goSplitPath path) = true) := by
  have hcond : (route.method != method && route.method != str "*") = false := by
    rcases hmeth with h | h <;> simp [h]
  simp only [matchRoute, hcond, hlast, if_false, Bool.false_eq_true]
  simp only [beq_self_eq_true, if_true]
  split
  · rename_i hlt
    constructor
    · intro h; exact absurd h (by simp)
    · intro ⟨hle, _⟩; omega
  · rename_i hlt
    constructor
    · intro h; exact ⟨by omega, h⟩
    · intro ⟨_, h⟩; exact h

/-- C2 (amended): for a route whose last path segment is `*` and whose method
matches, an inbound path matches iff, after trimming '/' from both ends and
splitting on '/' — where a path that is empty after trimming counts as ONE
empty segment, as in Go's `strings.Split` — the inbound path has at least as
many segments as the route prefix and every prefix segment matches literally
or is a `{name}` placeholder.  In particular `/a/*` matches `/a`, `/a/`,
`/a/b`, `/a/b/c` and not `/a2/b`, and `/{id}` does not match `/1/2`. -/
theorem claim_C2_tail_wildcard_matching :
    (∀ (route : RouteConfig) (path method : Str),
        (route.method = method ∨ route.method = str "*") →
        (goSplitPath route.path).getLast? = some (str "*") →
        (matchRoute route path method = true ↔
          ((goSplitPath route.path).dropLast.length ≤ (goSplitPath path).length ∧
           segsMatch (goSplitPath route.path).dropLast (goSplitPath path) = true))) ∧
    matchRoute routeTailWild (str "/a") (str "GET") = true ∧
    matchRoute routeTailWild (str "/a/") (str "GET") = true ∧
    matchRoute routeTailWild (str "/a/b") (str "GET") = true ∧
    matchRoute routeTailWild (str "/a/b/c") (str "GET") = true ∧
    matchRoute routeTailWild (str "/a2/b") (str "GET") = false ∧
    matchRoute routeIdExact (str "/1/2") (str "GET") = false :=
  ⟨matchRoute_wildcard_iff, by decide, by decide, by decide, by decide, by decide, by decide⟩

/-- C2 witness: the characterisation instantiated on route `/a/*` and inbound
path `/a/b`. -/
theorem claim_C2_tail_wildcard_matching_witness :
    matchRoute routeTailWild (str "/a/b") (str "GET") = true ↔
      ((goSplitPath routeTailWild.path).dropLast.length ≤ (goSplitPath (str "/a/b")).length ∧
       segsMatch (goSplitPath routeTailWild.path).dropLast (goSplitPath (str "/a/b")) = true) :=
  claim_C2_tail_wildcard_matching.1 routeTailWild (str "/a/b") (str "GET")
    (Or.inr (by decide)) (by decide)

/-- C2 counterexample: under the claim's own segment model — empty
leading/trailing segments dropped, so `/` has no segments — the route
`/{id}/*` must not match the inbound path `/`, yet the code's `matchRoute`
does match it (Go's `strings.Split` turns the fully-trimmed path into one
empty segment, which the `{id}` placeholder then consumes). -/
theorem claim_C2_counterexample :
    matchRoute routeIdWild (str "/") (str "GET") = true ∧
    specWildcardMatch routeIdWild (str "/") = false := by decide

/-- `shouldForwardHeader` accepts a name exactly when its lower-cased form is
not the lower-cased form of one of the eight hop-by-hop headers. -/
theorem shouldForwardHeader_iff (name : Str) :
    shouldForwardHeader name = true ↔ toLowerStr name ∉ hopByHopHeaders.map toLowerStr := by
  simp [shouldForwardHeader, List.any_eq_true, List.mem_map]
  constructor
  · intro h x hx heq; exact h x hx heq.symm
  · intro h x hx heq; exact h x hx heq.symm

/-- C4: an inbound header entry is forwarded by the proxy strategy iff its
name is not, case-insensitively, one of Connection, Keep-Alive,
Proxy-Authenticate, Proxy-Authorization, TE, Trailers, Transfer-Encoding,
Upgrade; and — given Go's `net/http` server invariant that the Host header
is promoted to `Request.Host` and removed from the header map before the
handler runs — no forwarded header is Host. -/
theorem claim_C4_header_forwarding :
    (∀ (headers : List (Str × List Str)) (p : Str × List Str),
        p ∈ forwardedHeaders headers ↔
          (p ∈ headers ∧ toLowerStr p.1 ∉ hopByHopHeaders.map toLowerStr)) ∧
    (∀ (headers : List (Str × List Str)),
        (∀ p ∈ headers, toLowerStr p.1 ≠ str "host") →
        ∀ p ∈ forwardedHeaders headers, toLowerStr p.1 ≠ str "host") := by
  constructor
  · intro headers p
    simp [forwardedHeaders, List.mem_filter, shouldForwardHeader_iff]
  · intro headers h p hp
    exact h p (List.mem_of_mem_filter hp)

/-- C4 witness: on the concrete header map
`[Accept: x, Connection: close]` the Accept entry is forwarded, the
Connection entry is dropped, and nothing forwarded is the Host header. -/
theorem claim_C4_header_forwarding_witness :
    ((str "Accept", [str "x"]) ∈
        forwardedHeaders [(str "Accept", [str "x"]), (str "Connection", [str "close"])] ↔
      ((str "Accept", [str "x"]) ∈
          [(str "Accept", [str "x"]), (str "Connection", [str "close"])] ∧
       toLowerStr (str "Accept") ∉ hopByHopHeaders.map toLowerStr)) ∧
    toLowerStr (str "Accept") ≠ str "host" :=
  ⟨claim_C4_header_forwarding.1
      [(str "Accept", [str "x"]), (str "Connection", [str "close"])] (str "Accept", [str "x"]),
   claim_C4_header_forwarding.2
      [(str "Accept", [str "x"]), (str "Connection", [str "close"])] (by decide)
      (str "Accept", [str "x"]) (by decide)⟩

/-- C7 (amended): the converted gateway response carries the upstream status
code, but of the upstream headers only Content-Type (its first value, when
present and non-empty) is copied; the body is the JSON-decoded tree when the
body bytes parse as JSON, the raw string when they do not, and an empty
object when the body is empty. -/
theorem claim_C7_response_normalizer (decode : Str → Option JVal) (resp : HTTPResponse) :
    (convertHTTPResponse decode resp).statusCode = resp.statusCode ∧
    (convertHTTPResponse decode resp).headers =
      (if headerGet resp.headers (str "Content-Type") ≠ [] then
        [(str "Content-Type", headerGet resp.headers (str "Content-Type"))]
      else []) ∧
    (resp.body = [] → (convertHTTPResponse decode resp).body = .jv (.jobj [])) ∧
    (∀ j, resp.body ≠ [] → decode resp.body = some j →
      (convertHTTPResponse decode resp).body = .jv j) ∧
    (resp.body ≠ [] → decode resp.body = none →
      (convertHTTPResponse decode resp).body = .jv (.jstr resp.body)) := by
  refine ⟨rfl, rfl, ?_, ?_, ?_⟩
  · intro h; simp [convertHTTPResponse, h]
  · intro j h hd; simp [convertHTTPResponse, h, hd]
  · intro h hd; simp [convertHTTPResponse, h, hd]

/-- C7 witness: a non-empty body that fails JSON decoding is returned as the
raw string, at status 204. -/
theorem claim_C7_response_normalizer_witness :
    (convertHTTPResponse decodeNone ⟨204, [], str "x"⟩).body = .jv (.jstr (str "x")) :=
  (claim_C7_response_normalizer decodeNone ⟨204, [], str "x"⟩).2.2.2.2 (by decide) rfl

/-- C7 counterexample: the upstream response carries the header
`X-Custom: v`, but the converted gateway response carries no headers at all —
`convertHTTPResponse` copies only Content-Type, so the claim that the first
value of EVERY upstream header is copied is false. -/
theorem claim_C7_counterexample :
    (HTTPResponse.mk 200 [(str "X-Custom", [str "v"])] []).headers =
      [(str "X-Custom", [str "v"])] ∧
    (convertHTTPResponse decodeNone
        (HTTPResponse.mk 200 [(str "X-Custom", [str "v"])] [])).headers = [] := by
  exact ⟨rfl, rfl⟩

/-- C10: for a request whose method is not POST, PUT or PATCH, the body
capture of `HandleRequest` stores no body and leaves the header map
untouched — in particular the synthetic `x-multipart-body` header is never
added — regardless of content type, content length or payload. -/
theorem claim_C10_body_capture_frame (decode : Str → Option JVal)
    (method ct : Str) (hasBody : Bool) (len : Int) (bytes : Str)
    (headers : List (Str × Str))
    (h1 : method ≠ str "POST") (h2 : method ≠ str "PUT") (h3 : method ≠ str "PATCH") :
    captureBody decode method ct hasBody len bytes headers = (.empty, headers) := by
  simp [captureBody, h1, h2, h3]

/-- C10 witness: a GET request with a 5-byte multipart payload is left
uncaptured and adds no synthetic header. -/
theorem claim_C10_body_capture_frame_witness :
    captureBody decodeNone (str "GET") (str "multipart/form-data") true 5 (str "abcde")
      [(str "accept", str "x")] = (.empty, [(str "accept", str "x")]) :=
  claim_C10_body_capture_frame decodeNone (str "GET") (str "multipart/form-data") true 5
    (str "abcde") [(str "accept", str "x")] (by decide) (by decide) (by decide)

/-- Every dispatch event emitted by `handleProxyMode` carries the user of the
request context it was dispatched with. -/
theorem handleProxyMode_events_user (env : GatewayEnv) (rc : RequestContext)
    (routeConfig : RouteConfig) :
    ∀ ev ∈ (handleProxyMode env rc routeConfig).2, ev.params.userInfo = rc.user := by
  unfold handleProxyMode
  split
  · simp
  · dsimp only
    split <;> simp

/-- Every dispatch event emitted by `handleLogicMode` carries the user of
the request context it was dispatched with. -/
theorem handleLogicMode_events_user (env : GatewayEnv) (rc : RequestContext)
    (routeConfig : RouteConfig) :
    ∀ ev ∈ (handleLogicMode env rc routeConfig).2, ev.params.userInfo = rc.user := by
  unfold handleLogicMode
  dsimp only
  split <;> simp

/-- Every dispatch event emitted by `handleGraphQLMode` carries the user of
the request context it was dispatched with. -/
theorem handleGraphQLMode_events_user (env : GatewayEnv) (rc : RequestContext)
    (routeConfig : RouteConfig) :
    ∀ ev ∈ (handleGraphQLMode env rc routeConfig).2, ev.params.userInfo = rc.user := by
  unfold handleGraphQLMode
  dsimp only
  split <;> simp

/-- Every dispatch event emitted by the mode switch carries the user of the
request context it was dispatched with. -/
theorem dispatchMode_events_user (env : GatewayEnv) (rc : RequestContext)
    (routeConfig : RouteConfig) :
    ∀ ev ∈ (dispatchMode env rc routeConfig).2, ev.params.userInfo = rc.user := by
  unfold dispatchMode
  split_ifs
  · exact handleProxyMode_events_user env rc routeConfig
  · exact handleLogicMode_events_user env rc routeConfig
  · exact handleGraphQLMode_events_user env rc routeConfig
  · simp

/-- C1: a request whose matched route has `auth_required = true` either
terminates with status 401 and a body of the form `{"error": "..."}` with no
strategy dispatched, or every strategy dispatch it causes carries a non-null
principal in its parameters. -/
theorem claim_C1_auth_gate (env : GatewayEnv) (reqCtx : RequestContext)
    (route : RouteConfig)
    (hroute : getRouteConfig env.routes reqCtx.path reqCtx.method = some route)
    (hauth : route.authRequired = true) :
    (((processRequest env reqCtx).1.statusCode = 401 ∧
      (∃ s, (processRequest env reqCtx).1.body = .jv (.jobj [(str "error", .jstr s)])) ∧
      (processRequest env reqCtx).2 = []) ∨
     (∀ ev ∈ (processRequest env reqCtx).2, ∃ u, ev.params.userInfo = some u)) := by
  unfold processRequest
  rw [hroute]
  simp only [hauth, if_true]
  cases hA : authenticateRequest env reqCtx with
  | error e => exact Or.inl ⟨rfl, ⟨_, rfl⟩, rfl⟩
  | ok u =>
    refine Or.inr (fun ev hev => ⟨u, ?_⟩)
    have h := dispatchMode_events_user env { reqCtx with user := some u } route ev hev
    rw [h]

/-- C1 witness: on the concrete auth-required route `/p` a GET without
credentials yields the 401 branch. -/
theorem claim_C1_auth_gate_witness :
    (((processRequest envAuth ⟨str "GET", str "/p", [], none⟩).1.statusCode = 401 ∧
      (∃ s, (processRequest envAuth ⟨str "GET", str "/p", [], none⟩).1.body =
        .jv (.jobj [(str "error", .jstr s)])) ∧
      (processRequest envAuth ⟨str "GET", str "/p", [], none⟩).2 = []) ∨
     (∀ ev ∈ (processRequest envAuth ⟨str "GET", str "/p", [], none⟩).2,
        ∃ u, ev.params.userInfo = some u)) :=
  claim_C1_auth_gate envAuth ⟨str "GET", str "/p", [], none⟩ routeAuthP (by decide) rfl

/-- C3 (amended): the JWT middleware's gate is a no-op for OPTIONS requests —
`ValidateRequest` passes them through without consulting the route table or
the token validator and never aborts with 401.  (The in-pipeline gate of
`ProcessRequest`, by contrast, authenticates OPTIONS like any other method;
see the counterexample.) -/
theorem claim_C3_options_skip (routes : List RouteConfig)
    (validateToken : Str → Except Str UserInfo) (path authHeader : Str) :
    validateRequestMW routes validateToken (str "OPTIONS") path authHeader = .next none := by
  simp [validateRequestMW]

/-- C3 counterexample: an OPTIONS request to the auth-required route `/p`
(whose method pattern `*` also matches OPTIONS) with no credentials is
rejected by the pipeline gate with 401 and never dispatched, so the claim
that OPTIONS requests are never rejected with 401 is false of
`ProcessRequest`. -/
theorem claim_C3_counterexample :
    (processRequest envAuth ⟨str "OPTIONS", str "/p", [], none⟩).1.statusCode = 401 ∧
    (processRequest envAuth ⟨str "OPTIONS", str "/p", [], none⟩).1.body =
      errorBody (str "Authentication failed") ∧
    (processRequest envAuth ⟨str "OPTIONS", str "/p", [], none⟩).2 = [] :=
  ⟨rfl, rfl, rfl⟩

/-- Monotone fuel: any fuel at least the subject's length computes the same
replacement. -/
theorem replaceAllAux_fuel (o : Char) (os new : Str) :
    ∀ (f1 f2 : Nat) (s : Str), s.length ≤ f1 → s.length ≤ f2 →
      replaceAllAux (o :: os) new f1 s = replaceAllAux (o :: os) new f2 s := by
  intro f1
  induction f1 with
  | zero =>
    intro f2 s hs _
    have : s = [] := List.eq_nil_of_length_eq_zero (Nat.le_zero.mp hs)
    subst this
    cases f2 <;> rfl
  | succ n ih =>
    intro f2 s hs hs2
    match s with
    | [] => cases f2 <;> rfl
    | c :: cs =>
      match f2 with
      | 0 => exact absurd hs2 (by simp)
      | m+1 =>
        simp only [replaceAllAux]
        cases hpre : (o :: os).isPrefixOf (c :: cs) with
        | true =>
          simp only [if_true]
          have h1 : ((c :: cs).drop (o :: os).length).length ≤ n := by
            have : cs.length ≤ n := Nat.le_of_succ_le_succ hs
            simp only [List.length_drop, List.length_cons]
            omega
          have h2 : ((c :: cs).drop (o :: os).length).length ≤ m := by
            have : cs.length ≤ m := Nat.le_of_succ_le_succ hs2
            simp only [List.length_drop, List.length_cons]
            omega
          rw [ih m _ h1 h2]
        | false =>
          simp only [Bool.false_eq_true, if_false]
          have h1 : cs.length ≤ n := Nat.le_of_succ_le_succ hs
          have h2 : cs.length ≤ m := Nat.le_of_succ_le_succ hs2
          rw [ih m cs h1 h2]

/-- The one-step unfolding of Go ReplaceAll on a non-empty subject. -/
theorem replaceAll_cons_eq (o : Char) (os new : Str) (c : Char) (cs : Str) :
    replaceAll (o :: os) new (c :: cs) =
      if (o :: os).isPrefixOf (c :: cs) then
        new ++ replaceAll (o :: os) new ((c :: cs).drop (o :: os).length)
      else c :: replaceAll (o :: os) new cs := by
  show replaceAllAux (o :: os) new (cs.length + 1) (c :: cs) = _
  simp only [replaceAllAux]
  cases hpre : (o :: os).isPrefixOf (c :: cs) with
  | true =>
    simp only [if_true]
    have hd : ((c :: cs).drop (o :: os).length).length ≤ cs.length := by
      simp only [List.length_drop, List.length_cons]; omega
    rw [replaceAllAux_fuel o os new cs.length ((c :: cs).drop (o :: os).length).length _ hd le_rfl]
    rfl
  | false =>
    simp only [Bool.false_eq_true, if_false]
    rfl

/-- Go ReplaceAll of a non-empty pattern on the empty string. -/
theorem replaceAll_nil_right (o : Char) (os new : Str) :
    replaceAll (o :: os) new [] = [] := rfl

/-- Inserting under a fresh key grows a Go map by exactly one entry. -/
theorem mapInsert_length_fresh {α : Type} (k : Str) (v : α) (m : List (Str × α))
    (h : k ∉ m.map Prod.fst) : (mapInsert k v m).length = m.length + 1 := by
  induction m with
  | nil => rfl
  | cons p rest ih =>
    have hk : p.1 ≠ k := fun he => h (he ▸ List.mem_map_of_mem Prod.fst (List.mem_cons_self p rest))
    have hrest : k ∉ rest.map Prod.fst := fun hm => h (List.mem_cons_of_mem p.1 hm)
    simp only [mapInsert, hk, if_false, List.length_cons, ih hrest]

/-- Inserting a different key preserves absence of a key. -/
theorem mapInsert_not_mem_keys {α : Type} (a k : Str) (v : α) (m : List (Str × α))
    (ha : a ∉ m.map Prod.fst) (hak : a ≠ k) :
    a ∉ (mapInsert k v m).map Prod.fst := by
  induction m with
  | nil =>
    intro hc
    rcases List.mem_cons.mp hc with h | h
    · exact hak h
    · cases h
  | cons p rest ih =>
    have ha1 : a ≠ p.1 := fun he => ha (he ▸ List.mem_map_of_mem Prod.fst (List.mem_cons_self p rest))
    have harest : a ∉ rest.map Prod.fst := fun hm => ha (List.mem_cons_of_mem p.1 hm)
    simp only [mapInsert]
    by_cases hp : p.1 = k
    · simp only [hp, if_true, List.map_cons, List.mem_cons]
      intro hc
      rcases hc with h | h
      · exact hak h
      · exact harest h
    · simp only [hp, if_false, List.map_cons, List.mem_cons]
      intro hc
      rcases hc with h | h
      · exact ha1 h
      · exact ih harest h

/-- A Go map insert never produces an empty map. -/
theorem mapInsert_ne_nil {α : Type} (k : Str) (v : α) (m : List (Str × α)) :
    mapInsert k v m ≠ [] := by
  cases m with
  | nil => simp [mapInsert]
  | cons p rest =>
    simp only [mapInsert]
    split <;> simp

/-- The fan-out collection loop: with pairwise-distinct upstream service
names (fresh w.r.t. the accumulator), each call adds exactly one entry to
one of the two maps. -/
theorem collect_fold_length (call : UpstreamConfig → CallOutcome) :
    ∀ (ups : List UpstreamConfig) (acc : List (Str × JVal) × List (Str × Str)),
      (ups.map (fun u => u.service)).Nodup →
      (∀ up ∈ ups, up.service ∉ acc.1.map Prod.fst ∧ up.service ∉ acc.2.map Prod.fst) →
      (ups.foldl (collectStep call) acc).1.length + (ups.foldl (collectStep call) acc).2.length =
        acc.1.length + acc.2.length + ups.length := by
  intro ups
  induction ups with
  | nil => intro acc _ _; simp
  | cons up rest ih =>
    intro acc hnodup hfresh
    simp only [List.map_cons, List.nodup_cons] at hnodup
    have hfreshUp := hfresh up (List.mem_cons_self up rest)
    simp only [List.foldl_cons, List.length_cons]
    have hrest : ∀ u ∈ rest, u.service ∉ (collectStep call acc up).1.map Prod.fst ∧
        u.service ∉ (collectStep call acc up).2.map Prod.fst := by
      intro u hu
      have hne : u.service ≠ up.service := by
        intro he
        exact hnodup.1 (by rw [← he]; exact List.mem_map_of_mem (fun x => x.service) hu)
      have hu1 := (hfresh u (List.mem_cons_of_mem up hu)).1
      have hu2 := (hfresh u (List.mem_cons_of_mem up hu)).2
      unfold collectStep
      cases call up with
      | ok v => exact ⟨mapInsert_not_mem_keys _ _ _ _ hu1 hne, hu2⟩
      | error e => exact ⟨hu1, mapInsert_not_mem_keys _ _ _ _ hu2 hne⟩
    rw [ih (collectStep call acc up) hnodup.2 hrest]
    unfold collectStep
    cases call up with
    | ok v =>
      simp only
      rw [mapInsert_length_fresh up.service v acc.1 hfreshUp.1]
      omega
    | error e =>
      simp only
      rw [mapInsert_length_fresh up.service e acc.2 hfreshUp.2]
      omega

/-- The error map of the fan-out is empty exactly when the accumulator's was
and no call failed. -/
theorem collect_fold_errors_nil_iff (call : UpstreamConfig → CallOutcome) :
    ∀ (ups : List UpstreamConfig) (acc : List (Str × JVal) × List (Str × Str)),
      ((ups.foldl (collectStep call) acc).2 = [] ↔
        (acc.2 = [] ∧ ∀ up ∈ ups, ∀ e, call up ≠ .error e)) := by
  intro ups
  induction ups with
  | nil => intro acc; simp
  | cons up rest ih =>
    intro acc
    simp only [List.foldl_cons]
    rw [ih (collectStep call acc up)]
    unfold collectStep
    cases h : call up with
    | ok v =>
      simp only
      constructor
      · intro ⟨h1, h2⟩
        refine ⟨h1, fun u hu e => ?_⟩
        rcases List.mem_cons.mp hu with rfl | hmem
        · rw [h]; intro hc; cases hc
        · exact h2 u hmem e
      · intro ⟨h1, h2⟩
        exact ⟨h1, fun u hu e => h2 u (List.mem_cons_of_mem up hu) e⟩
    | error e =>
      simp only
      constructor
      · intro ⟨h1, _⟩
        exact absurd h1 (mapInsert_ne_nil _ _ _)
      · intro ⟨_, h2⟩
        exact absurd h (h2 up (List.mem_cons_self up rest) e)

/-- Lookup skips over a block in which the key is absent. -/
theorem mapLookup_append_of_none {α : Type} (k : Str) (xs ys : List (Str × α))
    (h : mapLookup k xs = none) : mapLookup k (xs ++ ys) = mapLookup k ys := by
  induction xs with
  | nil => simp
  | cons p rest ih =>
    simp only [mapLookup] at h ⊢
    by_cases hp : p.1 = k
    · simp [hp] at h
    · simp only [hp, if_false] at h ⊢
      exact ih h

/-- The dashboard fan-out produces a non-empty error map exactly when some
upstream call failed. -/
theorem collectResults_errors_ne_nil_iff (call : UpstreamConfig → CallOutcome)
    (ups : List UpstreamConfig) :
    (collectResults call ups).2 ≠ [] ↔ ∃ up ∈ ups, ∃ e, call up = .error e := by
  unfold collectResults
  simp only [ne_eq, collect_fold_errors_nil_iff call ups ([], []), true_and]
  push_neg
  rfl

/-- Logic mode turns a strategy value into a 200 response. -/
theorem handleLogicMode_ok_value (env : GatewayEnv) (rc : RequestContext)
    (cfg : RouteConfig) (v : JVal)
    (h : env.exec cfg.strategy
        ⟨rc, cfg, collectServices env.services cfg.upstreams, rc.user⟩ = .ok (.value v)) :
    handleLogicMode env rc cfg =
      (⟨200, [], .jv v⟩,
       [⟨cfg.strategy, ⟨rc, cfg, collectServices env.services cfg.upstreams, rc.user⟩⟩]) := by
  unfold handleLogicMode
  dsimp only
  rw [h]

/-- Logic mode turns a strategy error into a 500 response with an error
body. -/
theorem handleLogicMode_error_500 (env : GatewayEnv) (rc : RequestContext)
    (cfg : RouteConfig) (e : Str)
    (h : env.exec cfg.strategy
        ⟨rc, cfg, collectServices env.services cfg.upstreams, rc.user⟩ = .error e) :
    handleLogicMode env rc cfg =
      (⟨500, [], errorBody (str "Strategy execution failed")⟩,
       [⟨cfg.strategy, ⟨rc, cfg, collectServices env.services cfg.upstreams, rc.user⟩⟩]) := by
  unfold handleLogicMode
  dsimp only
  rw [h]

/-- C5 (amended): for a dashboard fan-out over upstreams with pairwise
distinct service names, the data and error maps partition the upstream list
(`len(data) + len(errors) = len(upstreams)`); the `errors` key is present in
the returned value iff at least one call failed; the strategy itself always
returns a value with nil error, which logic mode emits with status 200. -/
theorem claim_C5_dashboard_partial_failure :
    (∀ (call : UpstreamConfig → CallOutcome) (route : RouteConfig),
        (route.upstreams.map (fun u => u.service)).Nodup →
        (collectResults call route.upstreams).1.length +
          (collectResults call route.upstreams).2.length = route.upstreams.length) ∧
    (∀ (call : UpstreamConfig → CallOutcome) (route : RouteConfig) (now : Str),
        (mapLookup (str "errors") (dashboardFields call route now)).isSome = true ↔
          ∃ up ∈ route.upstreams, ∃ e, call up = .error e) ∧
    (∀ (call : UpstreamConfig → CallOutcome) (route : RouteConfig) (now : Str),
        dashboardOrchestratorExecute call route now = .ok (.jobj (dashboardFields call route now))) ∧
    (∀ (env : GatewayEnv) (rc : RequestContext) (cfg : RouteConfig) (v : JVal),
        env.exec cfg.strategy ⟨rc, cfg, collectServices env.services cfg.upstreams, rc.user⟩ =
          .ok (.value v) →
        (handleLogicMode env rc cfg).1.statusCode = 200) := by
  refine ⟨?_, ?_, ?_, ?_⟩
  · intro call route hnodup
    have h := collect_fold_length call route.upstreams ([], []) hnodup (by simp)
    simpa [collectResults] using h
  · intro call route now
    unfold dashboardFields
    dsimp only
    by_cases hpos : (collectResults call route.upstreams).2.length > 0
    · simp only [hpos, if_true]
      have hb : mapLookup (str "errors")
          [(str "timestamp", JVal.jstr now),
           (str "data", JVal.jobj (collectResults call route.upstreams).1)] = none := by
        simp +decide [mapLookup]
      rw [mapLookup_append_of_none _ _ _ hb]
      simp only [mapLookup, if_pos, Option.isSome_some, true_iff]
      exact (collectResults_errors_ne_nil_iff call route.upstreams).mp
        (List.ne_nil_of_length_pos hpos)
    · simp only [hpos, if_false]
      have hnil : (collectResults call route.upstreams).2 = [] := by
        cases hc : (collectResults call route.upstreams).2 with
        | nil => rfl
        | cons a l => exact absurd (by rw [hc]; simp) hpos
      have hb : mapLookup (str "errors")
          [(str "timestamp", JVal.jstr now),
           (str "data", JVal.jobj (collectResults call route.upstreams).1)] = none := by
        simp +decide [mapLookup]
      rw [hb]
      simp only [Option.isSome_none, Bool.false_eq_true, false_iff]
      intro hex
      exact (collectResults_errors_ne_nil_iff call route.upstreams).mpr hex hnil
  · intro call route now
    rfl
  · intro env rc cfg v h
    rw [handleLogicMode_ok_value env rc cfg v h]

/-- C5 witness: two distinct upstreams, one succeeding and one failing,
partition into one data entry and one error entry. -/
theorem claim_C5_dashboard_partial_failure_witness :
    (collectResults callDash routeDash.upstreams).1.length +
      (collectResults callDash routeDash.upstreams).2.length = routeDash.upstreams.length :=
  claim_C5_dashboard_partial_failure.1 callDash routeDash (by decide)

/-- C5 counterexample: a route listing the same service name twice, with
both calls succeeding, collapses to a single data-map entry, so
`len(data) + len(errors)` is 1 while `len(upstreams)` is 2 — the claim fails
for every execution without the distinctness proviso. -/
theorem claim_C5_counterexample :
    (collectResults (fun _ => .ok .jnull) routeDupDash.upstreams).1.length +
      (collectResults (fun _ => .ok .jnull) routeDupDash.upstreams).2.length ≠
      routeDupDash.upstreams.length := by decide

/-- C6 (amended): when at least one upstream call of the plant-report
fan-out fails AND the `plant_management` key is absent from the collected
results, the strategy fails and logic mode responds 500 with a body of the
form `{"error": "..."}`.  (When every call succeeds the strategy returns the
report with status 200 even if `plant_management` is absent — see the
counterexample.) -/
theorem claim_C6_plant_report_critical (call : ServiceCallCfg → CallOutcome)
    (route : RouteConfig) (path now : Str)
    (hid : extractPlantID path ≠ [])
    (herr : (collectCallResults call (plantCalls route (extractPlantID path))).2 ≠ [])
    (hmiss : mapLookup (str "plant_management")
        (collectCallResults call (plantCalls route (extractPlantID path))).1 = none) :
    plantFullReportExecute call route path now =
      .error (str "failed to retrieve critical plant information") ∧
    (∀ (env : GatewayEnv) (rc : RequestContext) (cfg : RouteConfig) (e : Str),
        env.exec cfg.strategy ⟨rc, cfg, collectServices env.services cfg.upstreams, rc.user⟩ =
          .error e →
        ((handleLogicMode env rc cfg).1.statusCode = 500 ∧
         ∃ s, (handleLogicMode env rc cfg).1.body = .jv (.jobj [(str "error", .jstr s)]))) := by
  constructor
  · unfold plantFullReportExecute
    dsimp only
    rw [if_neg hid, if_pos (List.length_pos.mpr herr), hmiss]
    rfl
  · intro env rc cfg e h
    rw [handleLogicMode_error_500 env rc cfg e h]
    exact ⟨rfl, ⟨_, rfl⟩⟩

/-- C6 witness: the single upstream call fails, `plant_management` is absent,
and the strategy fails with the critical-information error. -/
theorem claim_C6_plant_report_critical_witness :
    plantFullReportExecute callPlantFail routePlantA (str "/api/v1/plant/7/full-report") (str "t") =
      .error (str "failed to retrieve critical plant information") :=
  (claim_C6_plant_report_critical callPlantFail routePlantA
    (str "/api/v1/plant/7/full-report") (str "t") (by decide) (by decide) rfl).1

/-- C6 counterexample: with a single `analytics` upstream that succeeds, the
`plant_management` key is absent from the results, yet the strategy returns
the report with a nil error (hence status 200), refuting the claim that a
missing `plant_management` key alone makes the strategy fail with 500. -/
theorem claim_C6_counterexample :
    mapLookup (str "plant_management")
      (collectCallResults callPlantOk (plantCalls routePlantA (str "7"))).1 = none ∧
    plantFullReportExecute callPlantOk routePlantA (str "/api/v1/plant/7/full-report") (str "t") =
      .ok (.jobj [(str "plant_id", .jstr (str "7")), (str "timestamp", .jstr (str "t")),
        (str "report", .jobj [(str "plant_info", .jnull), (str "analytics", .jnum 1),
          (str "measurements", .jnull)])]) :=
  ⟨rfl, rfl⟩

/-- GraphQL mode turns a strategy value into a 200 response with a JSON
Content-Type. -/
theorem handleGraphQLMode_ok_value (env : GatewayEnv) (rc : RequestContext)
    (cfg : RouteConfig) (v : JVal)
    (h : env.exec cfg.strategy ⟨rc, cfg, graphQLServices env cfg, rc.user⟩ = .ok (.value v)) :
    handleGraphQLMode env rc cfg =
      (⟨200, [(str "Content-Type", str "application/json")], .jv v⟩,
       [⟨cfg.strategy, ⟨rc, cfg, graphQLServices env cfg, rc.user⟩⟩]) := by
  unfold handleGraphQLMode
  dsimp only
  rw [h]

/-- C9: a query containing `plants` or `devices` but none of `analytics`,
`metrics`, `measurements` is forwarded to the configured `plant_management`
upstream at `/graphql`; a query containing none of the dispatch keywords and
neither `__schema` nor `__type` makes the strategy return
`{errors:[{message:"unknown GraphQL operation"}]}` as a normal value, which
GraphQL mode emits with status 200. -/
theorem claim_C9_graphql_keyword_routing :
    (∀ (services : List (Str × ServiceInfo)) (forward : ServiceInfo → Str → Str → CallOutcome)
        (query : Str) (si : ServiceInfo),
        containsField query [str "plants", str "devices"] = true →
        containsField query [str "analytics", str "metrics", str "measurements"] = false →
        mapLookup (str "plant_management") services = some si →
        routeGraphQLOperation services forward query =
          (forward si (str "/graphql") query,
           [⟨str "plant_management", str "/graphql", query⟩])) ∧
    (∀ (services : List (Str × ServiceInfo)) (forward : ServiceInfo → Str → Str → CallOutcome)
        (query : Str),
        containsField query [str "analytics", str "metrics", str "measurements"] = false →
        containsField query [str "plants", str "devices"] = false →
        containsField query [str "users", str "auth"] = false →
        containsField query [str "dashboard"] = false →
        containsGo query (str "__schema") = false →
        containsGo query (str "__type") = false →
        localSchemaExecute services forward query =
          (.ok (.jobj [(str "errors", .jarr [.jobj [(str "message",
              .jstr (str "unknown GraphQL operation"))]])]), [])) ∧
    (∀ (env : GatewayEnv) (rc : RequestContext) (cfg : RouteConfig) (v : JVal),
        env.exec cfg.strategy ⟨rc, cfg, graphQLServices env cfg, rc.user⟩ = .ok (.value v) →
        (handleGraphQLMode env rc cfg).1.statusCode = 200) := by
  refine ⟨?_, ?_, ?_⟩
  · intro services forward query si h1 h2 hsi
    unfold routeGraphQLOperation
    rw [h2, h1]
    simp only [Bool.false_eq_true, if_false, if_true]
    unfold callPlantManagementService
    rw [hsi]
  · intro services forward query h1 h2 h3 h4 h5 h6
    unfold localSchemaExecute routeGraphQLOperation
    rw [h1, h2, h3, h4]
    simp only [Bool.false_eq_true, if_false]
    unfold handleIntrospectionOrDefault
    rw [h5, h6]
    simp only [Bool.or_self, Bool.false_eq_true, if_false]
    rfl
  · intro env rc cfg v h
    rw [handleGraphQLMode_ok_value env rc cfg v h]

/-- C9 witness: the query `{ plants { id } }` is routed to the configured
plant-management service at `/graphql`. -/
theorem claim_C9_graphql_keyword_routing_witness :
    routeGraphQLOperation servicesPM forwardOk (str "{ plants { id } }") =
      (forwardOk siPlantMgmt (str "/graphql") (str "{ plants { id } }"),
       [⟨str "plant_management", str "/graphql", str "{ plants { id } }"⟩]) :=
  claim_C9_graphql_keyword_routing.1 servicesPM forwardOk (str "{ plants { id } }") siPlantMgmt
    (by decide) (by decide) rfl


theorem splitSlash_ne_nil (s : Str) : splitSlash s ≠ [] := by
  cases s with
  | nil => simp [splitSlash]
  | cons c cs =>
    simp only [splitSlash]
    cases h : splitSlash cs with
    | nil => simp
    | cons seg rest =>
      dsimp only
      split_ifs <;> simp

theorem splitSlash_no_slash (s : Str) : ∀ seg ∈ splitSlash s, '/' ∉ seg := by
  induction s with
  | nil =>
    intro seg hseg
    simp [splitSlash] at hseg
    simp [hseg]
  | cons c cs ih =>
    intro seg hseg
    simp only [splitSlash] at hseg
    cases hrec : splitSlash cs with
    | nil => exact absurd hrec (splitSlash_ne_nil cs)
    | cons seg0 rest =>
      rw [hrec] at hseg
      by_cases hc : c = '/'
      · simp only [hc, if_true] at hseg
        rcases List.mem_cons.mp hseg with rfl | h
        · simp
        · exact ih seg (hrec ▸ h)
      · simp only [hc, if_false] at hseg
        rcases List.mem_cons.mp hseg with rfl | h
        · intro hmem
          rcases List.mem_cons.mp hmem with h1 | h1
          · exact hc h1.symm
          · exact ih seg0 (hrec ▸ List.mem_cons_self seg0 rest) h1
        · exact ih seg (hrec ▸ List.mem_cons_of_mem seg0 h)

theorem joinSlash_cons (a : Str) (rest : List Str) (h : rest ≠ []) :
    joinSlash (a :: rest) = a ++ '/' :: joinSlash rest := by
  cases rest with
  | nil => exact absurd rfl h
  | cons b t => rfl

theorem mem_joinSlash (c : Char) (seg : Str) (segs : List Str)
    (hc : c ∈ seg) (hs : seg ∈ segs) : c ∈ joinSlash segs := by
  induction segs with
  | nil => cases hs
  | cons a rest ih =>
    cases rest with
    | nil =>
      rcases List.mem_cons.mp hs with rfl | h
      · exact hc
      · cases h
    | cons b t =>
      rw [joinSlash_cons a (b :: t) (by simp)]
      rcases List.mem_cons.mp hs with rfl | h
      · exact List.mem_append_left _ hc
      · exact List.mem_append_right _ (List.mem_cons_of_mem _ (List.mem_of_mem_cons_of_mem (by simp) (ih h)))

theorem isPrefixOf_append_char (p a b : Str) (hnoslash : '/' ∉ p) :
    p.isPrefixOf (a ++ '/' :: b) = p.isPrefixOf a := by
  by_cases hlen : p.length ≤ a.length
  · cases hfull : p.isPrefixOf (a ++ '/' :: b) with
    | true =>
      have hpre : p <+: a ++ '/' :: b := List.isPrefixOf_iff_prefix.mp hfull
      have : p = (a ++ '/' :: b).take p.length := List.prefix_iff_eq_take.mp hpre
      rw [List.take_append_of_le_length hlen] at this
      have : p <+: a := this ▸ List.take_prefix p.length a
      exact (List.isPrefixOf_iff_prefix.mpr this).symm
    | false =>
      cases ha : p.isPrefixOf a with
      | true =>
        have hpre : p <+: a := List.isPrefixOf_iff_prefix.mp ha
        have : p <+: a ++ '/' :: b := hpre.trans (List.prefix_append a ('/' :: b))
        rw [List.isPrefixOf_iff_prefix.mpr this] at hfull
        cases hfull
      | false => rfl
  · push_neg at hlen
    cases hfull : p.isPrefixOf (a ++ '/' :: b) with
    | true =>
      have hpre : p <+: a ++ '/' :: b := List.isPrefixOf_iff_prefix.mp hfull
      have htake : p = (a ++ '/' :: b).take p.length := List.prefix_iff_eq_take.mp hpre
      have hmem : '/' ∈ p := by
        rw [htake]
        have hidx : (a ++ '/' :: b)[a.length]? = some '/' := by
          rw [List.getElem?_append_right le_rfl]
          simp
        have : a.length < p.length := hlen
        rw [List.mem_iff_getElem?]
        exact ⟨a.length, by rw [List.getElem?_take_of_lt this, hidx]⟩
      exact absurd hmem hnoslash
    | false =>
      cases ha : p.isPrefixOf a with
      | true =>
        have hpre : p <+: a := List.isPrefixOf_iff_prefix.mp ha
        have := hpre.length_le
        omega
      | false => rfl

theorem replaceAll_append_slash (o : Char) (os v : Str) (hnoslash : '/' ∉ o :: os) :
    ∀ (a b : Str), replaceAll (o :: os) v (a ++ '/' :: b) =
      replaceAll (o :: os) v a ++ '/' :: replaceAll (o :: os) v b := by
  have main : ∀ (n : Nat) (a b : Str), a.length ≤ n →
      replaceAll (o :: os) v (a ++ '/' :: b) =
        replaceAll (o :: os) v a ++ '/' :: replaceAll (o :: os) v b := by
    intro n
    induction n with
    | zero =>
      intro a b ha
      have : a = [] := List.eq_nil_of_length_eq_zero (Nat.le_zero.mp ha)
      subst this
      simp only [List.nil_append]
      rw [replaceAll_cons_eq]
      have hfalse : (o :: os).isPrefixOf ('/' :: b) = false := by
        cases hpre : (o :: os).isPrefixOf ('/' :: b) with
        | true =>
          have := List.isPrefixOf_iff_prefix.mp hpre
          have ho : o = '/' := (List.cons_prefix_cons.mp this).1
          exact absurd (ho ▸ List.mem_cons_self o os) hnoslash
        | false => rfl
      rw [hfalse]
      simp only [Bool.false_eq_true, if_false]
      rfl
    | succ n ih =>
      intro a b ha
      match a with
      | [] => exact ih [] b (by simp)
      | c :: cs =>
        have hpeq : (o :: os).isPrefixOf (c :: cs ++ '/' :: b) = (o :: os).isPrefixOf (c :: cs) :=
          isPrefixOf_append_char (o :: os) (c :: cs) b hnoslash
        rw [List.cons_append, replaceAll_cons_eq]
        rw [show (c :: (cs ++ '/' :: b)) = ((c :: cs) ++ '/' :: b) from rfl, hpeq]
        cases hpre : (o :: os).isPrefixOf (c :: cs) with
        | true =>
          simp only [if_true]
          have hlen : (o :: os).length ≤ (c :: cs).length :=
            (List.isPrefixOf_iff_prefix.mp hpre).length_le
          have hdrop : ((c :: cs) ++ '/' :: b).drop (o :: os).length =
              (c :: cs).drop (o :: os).length ++ '/' :: b :=
            List.drop_append_of_le_length hlen
          rw [hdrop]
          have hrec : ((c :: cs).drop (o :: os).length).length ≤ n := by
            simp only [List.length_drop, List.length_cons] at *
            omega
          rw [ih _ b hrec]
          rw [replaceAll_cons_eq, hpre]
          simp
        | false =>
          simp only [Bool.false_eq_true, if_false]
          have hrec : cs.length ≤ n := by
            simp only [List.length_cons] at ha
            omega
          rw [ih cs b hrec]
          rw [replaceAll_cons_eq, hpre]
          simp
  intro a b
  exact main a.length a b le_rfl

theorem replaceAll_of_no_occurrence (o : Char) (os v : Str) :
    ∀ (s : Str), ¬ ((o :: os) <:+: s) → replaceAll (o :: os) v s = s := by
  intro s
  induction s with
  | nil => intro _; rfl
  | cons c cs ih =>
    intro hnot
    rw [replaceAll_cons_eq]
    have hfalse : (o :: os).isPrefixOf (c :: cs) = false := by
      cases hpre : (o :: os).isPrefixOf (c :: cs) with
      | true =>
        exact absurd (List.isPrefixOf_iff_prefix.mp hpre).isInfix hnot
      | false => rfl
    rw [hfalse]
    simp only [Bool.false_eq_true, if_false]
    rw [ih (fun hinf => hnot (hinf.trans (List.infix_cons (List.infix_refl cs))))]

theorem replaceAll_self (o : Char) (os v : Str) :
    replaceAll (o :: os) v (o :: os) = v := by
  rw [replaceAll_cons_eq]
  have : (o :: os).isPrefixOf (o :: os) = true :=
    List.isPrefixOf_iff_prefix.mpr (List.prefix_refl _)
  rw [this]
  simp only [if_true, List.drop_length]
  rw [replaceAll_nil_right]
  simp

theorem not_infix_of_head_not_mem (o : Char) (os seg : Str) (h : o ∉ seg) :
    ¬ ((o :: os) <:+: seg) := by
  intro hinf
  exact h (hinf.subset (List.mem_cons_self o os))

theorem placeholder_decomp (seg : Str) (h : isPlaceholder seg = true) :
    seg = '{' :: ((seg.drop 1).dropLast ++ ['}']) := by
  unfold isPlaceholder at h
  rw [Bool.and_eq_true, beq_iff_eq, beq_iff_eq] at h
  obtain ⟨hhead, hlast⟩ := h
  match seg with
  | [] => cases hhead
  | c :: rest =>
    have hc : c = '{' := by simpa using hhead
    subst hc
    match rest with
    | [] => simp at hlast
    | r :: rs =>
      have hne : (r :: rs) ≠ [] := by simp
      have hl : (r :: rs).getLast hne = '}' := by
        rw [List.getLast?_cons_cons, List.getLast?_eq_getLast (r :: rs) hne] at hlast
        exact Option.some.injEq _ _ ▸ hlast
      have hdecomp := List.dropLast_append_getLast hne
      rw [hl] at hdecomp
      simp only [List.drop_one, List.tail_cons]
      rw [hdecomp]

theorem prefix_names_eq (m n : Str) (_hm : '}' ∉ m) (hn : '}' ∉ n)
    (h : (m ++ ['}']) <+: (n ++ ['}'])) : m = n := by
  have hlen : m.length ≤ n.length := by
    have := h.length_le
    simp at this
    omega
  rcases Nat.lt_or_ge m.length n.length with hlt | hge
  · exfalso
    have hle : (m ++ ['}']).length ≤ n.length := by simp; omega
    have htake := List.prefix_iff_eq_take.mp h
    rw [List.take_append_of_le_length hle] at htake
    have hpn : (m ++ ['}']) <+: n := htake ▸ List.take_prefix _ n
    have : '}' ∈ n := hpn.subset (List.mem_append_right _ (by simp))
    exact hn this
  · have heq : m.length = n.length := le_antisymm hlen hge
    have hthis := List.prefix_iff_eq_take.mp h
    rw [List.take_of_length_le (by simp [heq])] at hthis
    exact List.append_inj_left hthis (by simp [heq])

theorem placeholder_no_occurrence (m n : Str) (_hm1 : '{' ∉ m) (hm2 : '}' ∉ m)
    (hn1 : '{' ∉ n) (hn2 : '}' ∉ n) (hne : m ≠ n) :
    ¬ (('{' :: (m ++ ['}'])) <:+: ('{' :: (n ++ ['}']))) := by
  intro hinf
  obtain ⟨s, t, heq⟩ := hinf
  match s with
  | [] =>
    simp only [List.nil_append] at heq
    have hpre : ('{' :: (m ++ ['}'])) <+: ('{' :: (n ++ ['}'])) := ⟨t, heq⟩
    have h2 : (m ++ ['}']) <+: (n ++ ['}']) := (List.cons_prefix_cons.mp hpre).2
    exact hne (prefix_names_eq m n hm2 hn2 h2)
  | c :: s2 =>
    have heq2 : c :: (s2 ++ ('{' :: (m ++ ['}'])) ++ t) = '{' :: (n ++ ['}']) := by
      simpa using heq
    have hc : c = '{' := (List.cons_eq_cons.mp heq2).1
    have hrest : s2 ++ ('{' :: (m ++ ['}'])) ++ t = n ++ ['}'] := (List.cons_eq_cons.mp heq2).2
    have hbrace : '{' ∈ n ++ ['}'] := by
      rw [← hrest]
      exact List.mem_append_left _ (List.mem_append_right _ (List.mem_cons_self _ _))
    rcases List.mem_append.mp hbrace with h | h
    · exact hn1 h
    · simp at h

theorem replaceAll_joinSlash (o : Char) (os v : Str) (hnoslash : '/' ∉ o :: os) :
    ∀ (segs : List Str),
      replaceAll (o :: os) v (joinSlash segs) = joinSlash (segs.map (replaceAll (o :: os) v)) := by
  intro segs
  induction segs with
  | nil => rfl
  | cons a rest ih =>
    cases rest with
    | nil => rfl
    | cons b t =>
      calc replaceAll (o :: os) v (joinSlash (a :: b :: t))
          = replaceAll (o :: os) v (a ++ '/' :: joinSlash (b :: t)) := by
            rw [joinSlash_cons a (b :: t) (by simp)]
        _ = replaceAll (o :: os) v a ++ '/' :: replaceAll (o :: os) v (joinSlash (b :: t)) :=
            replaceAll_append_slash o os v hnoslash a (joinSlash (b :: t))
        _ = replaceAll (o :: os) v a ++ '/' :: joinSlash ((b :: t).map (replaceAll (o :: os) v)) := by
            rw [ih]
        _ = joinSlash (replaceAll (o :: os) v a :: (b :: t).map (replaceAll (o :: os) v)) :=
            (joinSlash_cons _ _ (by simp)).symm
        _ = joinSlash ((a :: b :: t).map (replaceAll (o :: os) v)) := rfl

theorem strContains_of_mem (c : Char) (s : Str) (h : c ∈ s) :
    strContains s [c] = true := by
  induction s with
  | nil => cases h
  | cons a rest ih =>
    unfold strContains
    rcases List.mem_cons.mp h with rfl | hmem
    · have : [c].isPrefixOf (c :: rest) = true := by
        simp [List.isPrefixOf_iff_prefix, List.cons_prefix_cons]
      simp [this]
    · rw [Bool.or_eq_true]
      right
      exact ih hmem

theorem segsMatch_clean (rps ps : List Str) (h : segsMatch rps ps = true)
    (hps : ∀ x ∈ ps, cleanSeg x = true) :
    ∀ seg ∈ rps, isPlaceholder seg = true ∨ cleanSeg seg = true := by
  induction rps generalizing ps with
  | nil => intro seg hseg; cases hseg
  | cons rp rps ih =>
    cases ps with
    | nil => cases h
    | cons p pt =>
      unfold segsMatch at h
      rw [Bool.and_eq_true, Bool.or_eq_true] at h
      intro seg hseg
      rcases List.mem_cons.mp hseg with rfl | hmem
      · rcases h.1 with hpl | heq
        · exact Or.inl hpl
        · right
          rw [beq_iff_eq] at heq
          exact heq ▸ hps p (List.mem_cons_self p pt)
      · exact ih pt h.2 (fun x hx => hps x (List.mem_cons_of_mem p hx)) seg hmem

theorem substSegs_eq_take (rps ps : List Str) (h : segsMatch rps ps = true) :
    substSegs rps ps = ps.take rps.length := by
  induction rps generalizing ps with
  | nil => simp [substSegs]
  | cons rp rps ih =>
    cases ps with
    | nil => cases h
    | cons p pt =>
      unfold segsMatch at h
      rw [Bool.and_eq_true, Bool.or_eq_true] at h
      unfold substSegs
      rw [List.length_cons, List.take_succ_cons, ih pt h.2]
      rcases h.1 with hpl | heq
      · rw [if_pos hpl]
      · rw [beq_iff_eq] at heq
        split <;> simp [heq]

theorem cleanSeg_spec (x : Str) (h : cleanSeg x = true) :
    '{' ∉ x ∧ '}' ∉ x ∧ '*' ∉ x := by
  unfold cleanSeg at h
  rw [Bool.and_eq_true, Bool.and_eq_true] at h
  refine ⟨?_, ?_, ?_⟩
  · have := h.1.1
    simpa [List.elem_iff] using this
  · have := h.1.2
    simpa [List.elem_iff] using this
  · have := h.2
    simpa [List.elem_iff] using this

theorem substParams_join :
    ∀ (rps vs done tails : List Str),
      (∀ x ∈ done, '{' ∉ x) →
      (∀ x ∈ vs, cleanSeg x = true) →
      (∀ x ∈ tails, '{' ∉ x) →
      (∀ seg ∈ rps, '/' ∉ seg) →
      (∀ seg ∈ rps, isPlaceholder seg = true →
          ('{' ∉ (seg.drop 1).dropLast ∧ '}' ∉ (seg.drop 1).dropLast)) →
      (∀ seg ∈ rps, isPlaceholder seg = false → '{' ∉ seg) →
      (rps.filter (fun s => isPlaceholder s)).Nodup →
      rps.length ≤ vs.length →
      substParams rps vs (joinSlash (done ++ rps ++ tails)) =
        joinSlash (done ++ substSegs rps vs ++ tails) := by
  intro rps
  induction rps with
  | nil =>
    intro vs done tails _ _ _ _ _ _ _ _
    simp [substParams, substSegs]
  | cons rp rps ih =>
    intro vs done tails hdone hvs htails hslash hplw hlit hnodup hlen
    cases vs with
    | nil => simp at hlen
    | cons v vs =>
      have hvclean := hvs v (List.mem_cons_self v vs)
      have hvbrace : '{' ∉ v := (cleanSeg_spec v hvclean).1
      have hsubstep : substSegs (rp :: rps) (v :: vs) =
          (if isPlaceholder rp = true then v else rp) :: substSegs rps vs := rfl
      cases hpl : isPlaceholder rp with
      | false =>
        have hrp : '{' ∉ rp := hlit rp (List.mem_cons_self rp rps) hpl
        have step : substParams (rp :: rps) (v :: vs) (joinSlash (done ++ (rp :: rps) ++ tails)) =
            substParams rps vs (joinSlash ((done ++ [rp]) ++ rps ++ tails)) := by
          rw [show substParams (rp :: rps) (v :: vs) (joinSlash (done ++ (rp :: rps) ++ tails)) =
              substParams rps vs (if isPlaceholder rp = true then
                replaceAll rp v (joinSlash (done ++ (rp :: rps) ++ tails))
              else joinSlash (done ++ (rp :: rps) ++ tails)) from rfl]
          rw [hpl]
          simp only [Bool.false_eq_true, if_false]
          have : done ++ (rp :: rps) ++ tails = (done ++ [rp]) ++ rps ++ tails := by simp
          rw [this]
        rw [step]
        rw [ih vs (done ++ [rp]) tails
          (by intro x hx
              rcases List.mem_append.mp hx with h | h
              · exact hdone x h
              · simp at h
                exact h ▸ hrp)
          (fun x hx => hvs x (List.mem_cons_of_mem v hx))
          htails
          (fun seg hs => hslash seg (List.mem_cons_of_mem rp hs))
          (fun seg hs => hplw seg (List.mem_cons_of_mem rp hs))
          (fun seg hs => hlit seg (List.mem_cons_of_mem rp hs))
          (by
            have heqf : (List.filter (fun s => isPlaceholder s) (rp :: rps)) =
                List.filter (fun s => isPlaceholder s) rps := by
              simp [List.filter_cons, hpl]
            exact heqf ▸ hnodup)
          (by simpa using hlen)]
        rw [hsubstep, hpl]
        simp
      | true =>
        have hname := hplw rp (List.mem_cons_self rp rps) hpl
        have hrpdec := placeholder_decomp rp hpl
        have hnoslash : '/' ∉ rp := hslash rp (List.mem_cons_self rp rps)
        have hnodup2 : (List.filter (fun s => isPlaceholder s) (rp :: rps)) =
            rp :: List.filter (fun s => isPlaceholder s) rps := by
          simp [List.filter_cons, hpl]
        have hmapped : replaceAll rp v (joinSlash (done ++ (rp :: rps) ++ tails)) =
            joinSlash (done ++ (v :: rps) ++ tails) := by
          rw [hrpdec]
          rw [replaceAll_joinSlash '{' ((rp.drop 1).dropLast ++ ['}']) v
            (by rw [← hrpdec]; exact hnoslash)]
          have h1 : List.map (replaceAll ('{' :: ((rp.drop 1).dropLast ++ ['}'])) v) done =
              done := by
            refine (List.map_congr_left ?_).trans (List.map_id done)
            intro x hx
            exact replaceAll_of_no_occurrence _ _ _ x
              (not_infix_of_head_not_mem '{' _ x (hdone x hx))
          have h2 : replaceAll ('{' :: ((rp.drop 1).dropLast ++ ['}'])) v
              ('{' :: ((rp.drop 1).dropLast ++ ['}'])) = v :=
            replaceAll_self '{' ((rp.drop 1).dropLast ++ ['}']) v
          have h3 : List.map (replaceAll ('{' :: ((rp.drop 1).dropLast ++ ['}'])) v) rps =
              rps := by
            refine (List.map_congr_left ?_).trans (List.map_id rps)
            intro x hx
            cases hxpl : isPlaceholder x with
            | false =>
              exact replaceAll_of_no_occurrence _ _ _ x
                (not_infix_of_head_not_mem '{' _ x
                  (hlit x (List.mem_cons_of_mem rp hx) hxpl))
            | true =>
              have hxdec := placeholder_decomp x hxpl
              have hxname := hplw x (List.mem_cons_of_mem rp hx) hxpl
              have hne : rp ≠ x := by
                intro he
                have hmemf : rp ∈ List.filter (fun s => isPlaceholder s) rps :=
                  List.mem_filter.mpr ⟨he ▸ hx, by simpa using hpl⟩
                rw [hnodup2] at hnodup
                exact (List.nodup_cons.mp hnodup).1 hmemf
              have hnames : (rp.drop 1).dropLast ≠ (x.drop 1).dropLast := by
                intro he
                exact hne (by rw [hrpdec, hxdec, he])
              rw [hxdec]
              exact replaceAll_of_no_occurrence _ _ _ _
                (placeholder_no_occurrence (rp.drop 1).dropLast (x.drop 1).dropLast
                  hname.1 hname.2 hxname.1 hxname.2 hnames)
          have h4 : List.map (replaceAll ('{' :: ((rp.drop 1).dropLast ++ ['}'])) v) tails =
              tails := by
            refine (List.map_congr_left ?_).trans (List.map_id tails)
            intro x hx
            exact replaceAll_of_no_occurrence _ _ _ x
              (not_infix_of_head_not_mem '{' _ x (htails x hx))
          rw [List.map_append, List.map_append, List.map_cons, h1, h2, h3, h4]
        have step : substParams (rp :: rps) (v :: vs) (joinSlash (done ++ (rp :: rps) ++ tails)) =
            substParams rps vs (joinSlash ((done ++ [v]) ++ rps ++ tails)) := by
          rw [show substParams (rp :: rps) (v :: vs) (joinSlash (done ++ (rp :: rps) ++ tails)) =
              substParams rps vs (if isPlaceholder rp = true then
                replaceAll rp v (joinSlash (done ++ (rp :: rps) ++ tails))
              else joinSlash (done ++ (rp :: rps) ++ tails)) from rfl]
          rw [hpl]
          simp only [if_true]
          rw [hmapped]
          have : done ++ (v :: rps) ++ tails = (done ++ [v]) ++ rps ++ tails := by simp
          rw [this]
        rw [step]
        rw [ih vs (done ++ [v]) tails
          (by intro x hx
              rcases List.mem_append.mp hx with h | h
              · exact hdone x h
              · simp at h
                exact h ▸ hvbrace)
          (fun x hx => hvs x (List.mem_cons_of_mem v hx))
          htails
          (fun seg hs => hslash seg (List.mem_cons_of_mem rp hs))
          (fun seg hs => hplw seg (List.mem_cons_of_mem rp hs))
          (fun seg hs => hlit seg (List.mem_cons_of_mem rp hs))
          (by
            rw [hnodup2] at hnodup
            exact (List.nodup_cons.mp hnodup).2)
          (by simpa using hlen)]
        rw [hsubstep, hpl]
        simp

theorem matchRoute_true_method (route : RouteConfig) (path method : Str)
    (hm : matchRoute route path method = true) :
    route.method = method ∨ route.method = str "*" := by
  unfold matchRoute at hm
  by_cases hc : (route.method != method && route.method != str "*") = true
  · rw [if_pos hc] at hm
    cases hm
  · rw [Bool.and_eq_true, bne, bne] at hc
    push_neg at hc
    by_cases h1 : (route.method == method) = true
    · exact Or.inl (beq_iff_eq.mp h1)
    · have h2 := hc (by cases hb : (route.method == method) <;> simp [hb] at h1 ⊢)
      have : (route.method == str "*") = true := by
        cases hb : (route.method == str "*")
        · simp [hb] at h2
        · rfl
      exact Or.inr (beq_iff_eq.mp this)

theorem matchRoute_exact_true (route : RouteConfig) (path method : Str)
    (hm : matchRoute route path method = true)
    (hlast : (goSplitPath route.path).getLast? ≠ some (str "*")) :
    (goSplitPath route.path).length = (goSplitPath path).length ∧
    segsMatch (goSplitPath route.path) (goSplitPath path) = true := by
  unfold matchRoute at hm
  rw [if_neg (by
    intro hc
    rw [hc] at hm
    cases hm)] at hm
  dsimp only at hm
  rw [beq_eq_false_iff_ne.mpr hlast] at hm
  simp only [Bool.false_eq_true, if_false] at hm
  by_cases hlen : ((goSplitPath route.path).length != (goSplitPath path).length) = true
  · rw [if_pos hlen] at hm
    cases hm
  · rw [if_neg hlen] at hm
    refine ⟨?_, hm⟩
    have := bne_iff_ne.not.mp hlen
    push_neg at this
    exact this

theorem joinSlash_nil_cons (xs : List Str) (h : xs ≠ []) :
    joinSlash ([] :: xs) = '/' :: joinSlash xs := by
  rw [joinSlash_cons [] xs h]
  rfl

theorem joinSlash_flatten (ys : List Str) (hy : ys ≠ []) :
    ∀ (xs : List Str), joinSlash (xs ++ [joinSlash ys]) = joinSlash (xs ++ ys) := by
  intro xs
  induction xs with
  | nil =>
    simp only [List.nil_append]
    cases ys with
    | nil => exact absurd rfl hy
    | cons b t => rfl
  | cons a rest ih =>
    rw [List.cons_append, List.cons_append,
        joinSlash_cons a (rest ++ [joinSlash ys]) (by simp),
        joinSlash_cons a (rest ++ ys) (by simp [List.append_eq_nil, hy]),
        ih]

/-- C8 (amended): if a route's `target_path` template is character-for-
character equal to its path pattern, the rewritten outbound path equals the
inbound path, provided: both paths are in canonical form (a single leading
slash followed by their slash-joined trimmed segments); inbound segments
contain none of the structural characters `{`, `}`, `*`; placeholder names
are free of braces and placeholders are pairwise distinct; and for a
tail-wildcard route the wildcard tail is non-empty.  Without the provisos
the rewrite can differ (see the counterexample). -/
theorem claim_C8_identity_rewrite (route : RouteConfig) (path method : Str)
    (hmatch : matchRoute route path method = true)
    (htgt : route.targetPath = route.path)
    (hcanR : route.path = '/' :: joinSlash (goSplitPath route.path))
    (hcanP : path = '/' :: joinSlash (goSplitPath path))
    (hcleanP : ∀ seg ∈ goSplitPath path, cleanSeg seg = true)
    (hplw : ∀ seg ∈ goSplitPath route.path, isPlaceholder seg = true →
        ('{' ∉ (seg.drop 1).dropLast ∧ '}' ∉ (seg.drop 1).dropLast))
    (hnodup : ((goSplitPath route.path).filter (fun s => isPlaceholder s)).Nodup)
    (htail : (goSplitPath route.path).getLast? = some (str "*") →
        (goSplitPath route.path).dropLast.length < (goSplitPath path).length) :
    replacePathParameters route.targetPath path route.path = path := by
  have hmeth := matchRoute_true_method route path method hmatch
  have hpne : goSplitPath path ≠ [] := splitSlash_ne_nil _
  by_cases hlast : (goSplitPath route.path).getLast? = some (str "*")
  · obtain ⟨hle, hsegs⟩ := (matchRoute_wildcard_iff route path method hmeth hlast).mp hmatch
    have hstrict := htail hlast
    have hrne : goSplitPath route.path ≠ [] := splitSlash_ne_nil _
    have hdecomp : (goSplitPath route.path).dropLast ++ [str "*"] = goSplitPath route.path := by
      have h1 := List.dropLast_append_getLast hrne
      have h2 : (goSplitPath route.path).getLast hrne = str "*" := by
        have h3 := List.getLast?_eq_getLast _ hrne
        rw [h3] at hlast
        exact Option.some.inj hlast
      rw [← h2]
      exact h1
    have hsub : ∀ seg ∈ (goSplitPath route.path).dropLast, seg ∈ goSplitPath route.path :=
      fun seg hs => (List.dropLast_sublist _).subset hs
    have hslash : ∀ seg ∈ (goSplitPath route.path).dropLast, '/' ∉ seg :=
      fun seg hs => splitSlash_no_slash _ seg (hsub seg hs)
    have hcleanstem := segsMatch_clean _ (goSplitPath path) hsegs hcleanP
    have hlit : ∀ seg ∈ (goSplitPath route.path).dropLast,
        isPlaceholder seg = false → '{' ∉ seg := by
      intro seg hs hnp
      rcases hcleanstem seg hs with hp | hc
      · rw [hp] at hnp; cases hnp
      · exact (cleanSeg_spec seg hc).1
    have hplwstem : ∀ seg ∈ (goSplitPath route.path).dropLast, isPlaceholder seg = true →
        ('{' ∉ (seg.drop 1).dropLast ∧ '}' ∉ (seg.drop 1).dropLast) :=
      fun seg hs => hplw seg (hsub seg hs)
    have hnodupstem :
        (((goSplitPath route.path).dropLast).filter (fun s => isPlaceholder s)).Nodup :=
      hnodup.sublist ((List.dropLast_sublist _).filter _)
    have htgt2 : route.targetPath =
        joinSlash ([[]] ++ (goSplitPath route.path).dropLast ++ [str "*"]) := by
      rw [htgt]
      conv_lhs => rw [hcanR]
      rw [show [[]] ++ (goSplitPath route.path).dropLast ++ [str "*"] =
          [] :: ((goSplitPath route.path).dropLast ++ [str "*"]) from rfl]
      rw [joinSlash_nil_cons _ (by simp), hdecomp]
    unfold replacePathParameters
    dsimp only
    rw [show ((goSplitPath route.path).getLast? == some (str "*")) = true from
      beq_iff_eq.mpr hlast]
    simp only [if_true]
    rw [if_pos hle]
    rw [htgt2]
    rw [substParams_join _ (goSplitPath path) [[]] [str "*"]
      (by intro x hx; simp at hx; simp [hx])
      hcleanP
      (by intro x hx; simp at hx; subst hx; decide)
      hslash hplwstem hlit hnodupstem hle]
    rw [substSegs_eq_take _ (goSplitPath path) hsegs]
    rw [show (str "*") = ['*'] from rfl]
    have hstar : strContains
        (joinSlash ([[]] ++ (goSplitPath path).take (goSplitPath route.path).dropLast.length
          ++ [['*']])) ['*'] = true :=
      strContains_of_mem '*' _ (mem_joinSlash '*' ['*'] _ (by decide) (by simp))
    rw [if_pos hstar]
    rw [replaceAll_joinSlash '*' []
      (joinSlash ((goSplitPath path).drop (goSplitPath route.path).dropLast.length))
      (by decide)]
    have m2 : List.map (replaceAll ['*']
          (joinSlash ((goSplitPath path).drop (goSplitPath route.path).dropLast.length)))
        ((goSplitPath path).take (goSplitPath route.path).dropLast.length) =
        (goSplitPath path).take (goSplitPath route.path).dropLast.length := by
      refine (List.map_congr_left ?_).trans (List.map_id _)
      intro x hx
      have hxclean := hcleanP x (List.take_subset _ _ hx)
      exact replaceAll_of_no_occurrence '*' [] _ x
        (not_infix_of_head_not_mem '*' [] x (cleanSeg_spec x hxclean).2.2)
    have m3 : List.map (replaceAll ['*']
          (joinSlash ((goSplitPath path).drop (goSplitPath route.path).dropLast.length)))
        [['*']] =
        [joinSlash ((goSplitPath path).drop (goSplitPath route.path).dropLast.length)] := by
      simp only [List.map_cons, List.map_nil]
      rw [replaceAll_self '*' []]
    rw [List.map_append, List.map_append, m2, m3]
    rw [show List.map (replaceAll ['*']
          (joinSlash ((goSplitPath path).drop (goSplitPath route.path).dropLast.length)))
        [[]] = [[]] from rfl]
    have hdropne : (goSplitPath path).drop (goSplitPath route.path).dropLast.length ≠ [] := by
      apply List.ne_nil_of_length_pos
      rw [List.length_drop]
      omega
    rw [joinSlash_flatten _ hdropne ([[]] ++
      (goSplitPath path).take (goSplitPath route.path).dropLast.length)]
    rw [List.append_assoc, List.take_append_drop]
    rw [show ([[]] ++ goSplitPath path) = ([] :: goSplitPath path) from rfl]
    rw [joinSlash_nil_cons _ hpne]
    exact hcanP.symm
  · obtain ⟨hlen, hsegs⟩ := matchRoute_exact_true route path method hmatch hlast
    have hrne : goSplitPath route.path ≠ [] := splitSlash_ne_nil _
    have hslash : ∀ seg ∈ goSplitPath route.path, '/' ∉ seg :=
      fun seg hs => splitSlash_no_slash _ seg hs
    have hcleanstem := segsMatch_clean _ (goSplitPath path) hsegs hcleanP
    have hlit : ∀ seg ∈ goSplitPath route.path, isPlaceholder seg = false → '{' ∉ seg := by
      intro seg hs hnp
      rcases hcleanstem seg hs with hp | hc
      · rw [hp] at hnp; cases hnp
      · exact (cleanSeg_spec seg hc).1
    have htgt2 : route.targetPath = joinSlash ([[]] ++ goSplitPath route.path ++ []) := by
      rw [htgt]
      conv_lhs => rw [hcanR]
      rw [show [[]] ++ goSplitPath route.path ++ ([] : List Str) =
          [] :: (goSplitPath route.path ++ []) from rfl]
      rw [List.append_nil]
      rw [joinSlash_nil_cons _ hrne]
    unfold replacePathParameters
    dsimp only
    rw [show ((goSplitPath route.path).getLast? == some (str "*")) = false from
      beq_eq_false_iff_ne.mpr hlast]
    simp only [Bool.false_eq_true, if_false]
    rw [show ((goSplitPath route.path).length != (goSplitPath path).length) = false from by
      rw [hlen, bne_self_eq_false]]
    simp only [Bool.false_eq_true, if_false]
    rw [htgt2]
    rw [substParams_join _ (goSplitPath path) [[]] []
      (by intro x hx; simp at hx; simp [hx])
      hcleanP
      (by intro x hx; simp at hx)
      hslash hplw hlit hnodup (le_of_eq hlen)]
    rw [substSegs_eq_take _ (goSplitPath path) hsegs]
    rw [hlen, List.take_length, List.append_nil]
    rw [show ([[]] ++ goSplitPath path) = ([] :: goSplitPath path) from rfl]
    rw [joinSlash_nil_cons _ hpne]
    exact hcanP.symm

/-- C8 witness: the identity template of route `/api/{id}/*` maps the
inbound path `/api/42/doc/x` to itself. -/
theorem claim_C8_identity_rewrite_witness :
    replacePathParameters routeC8.targetPath (str "/api/42/doc/x") routeC8.path =
      str "/api/42/doc/x" :=
  claim_C8_identity_rewrite routeC8 (str "/api/42/doc/x") (str "GET") (by decide) rfl (by decide) (by decide)
    (by decide) (by decide) (by decide) (by decide)

/-- C8 counterexample: route `/a/*` with the identity template `target_path
= "/a/*"` matches the inbound path `/a` (empty wildcard tail), but the
rewrite produces `/a/` — not the inbound path — refuting the claim as
stated. -/
theorem claim_C8_counterexample :
    matchRoute routeWildTP (str "/a") (str "GET") = true ∧
    routeWildTP.targetPath = routeWildTP.path ∧
    replacePathParameters routeWildTP.targetPath (str "/a") routeWildTP.path = str "/a/" ∧
    str "/a/" ≠ str "/a" := by decide

end Gateway
